import Mathlib

/-!
Verification development for the IntelliClinix backend (`backend/cvat/routes.py`,
`backend/utils/file_processing.py`).

The Python functions are shallowly embedded as executable Lean definitions:
strings are `String`, integer pixel labels are `Nat`, Python `int` values that
may be negative are `Int`, floating-point slice data is modelled exactly over
`ℚ` (the claims only concern comparisons and affine arithmetic that are exact),
fallible code returns `Except`.  Calls into the external libraries `cv2`
(`findContours`, `fillPoly`) are modelled by executable Lean functions that
follow the documented behaviour of those routines (external-contour
Moore-neighbour border following with simple chain approximation, and even-odd
scan fill); each such model is marked in its doc comment.
-/

set_option maxHeartbeats 2000000

namespace IClinix

/-- Tests whether the first character list is an initial segment of the second. -/
def listStartsWith : List Char → List Char → Bool
  | [], _ => true
  | _ :: _, [] => false
  | p :: ps, c :: cs => p == c && listStartsWith ps cs

/-- Tests whether `pat` occurs as a contiguous sublist of the second list. -/
def listHasSub (pat : List Char) : List Char → Bool
  | [] => listStartsWith pat []
  | c :: cs => listStartsWith pat (c :: cs) || listHasSub pat cs

/-- Embeds Python's `pat in s` substring test. -/
def strContains (s pat : String) : Bool := listHasSub pat.toList s.toList

/-- ASCII decimal digit test (Python `int()` on the tokens the code produces). -/
def isDigitCh (c : Char) : Bool := decide ('0' ≤ c) && decide (c ≤ '9')

/-- Whitespace stripped by Python's `int()` before parsing. -/
def isSpaceCh (c : Char) : Bool := c == ' ' || c == '\t' || c == '\n' || c == '\r'

/-- Numeric value of a digit string (most significant digit first). -/
def digitsVal (cs : List Char) : Nat :=
  cs.foldl (fun a c => a * 10 + (c.toNat - '0'.toNat)) 0

/-- Parses a nonempty all-digit character list, as `int()` does after sign removal. -/
def parseDecDigits (cs : List Char) : Option Nat :=
  if cs ≠ [] ∧ cs.all isDigitCh then some (digitsVal cs) else none

/-- Embeds Python's `int(s)`: strip surrounding whitespace, optional sign, then
decimal digits; any other shape raises `ValueError`, modelled as `none`. -/
def pythonInt (s : String) : Option Int :=
  let cs := ((s.toList.dropWhile isSpaceCh).reverse.dropWhile isSpaceCh).reverse
  match cs with
  | '-' :: rest => (parseDecDigits rest).map (fun n => -(n : Int))
  | '+' :: rest => (parseDecDigits rest).map (fun n => (n : Int))
  | _ => (parseDecDigits cs).map (fun n => (n : Int))

/-- Embeds the root part of Python's `os.path.splitext`: drop the extension
starting at the last dot, except that a run of leading dots never starts an
extension. -/
def splitextBase (s : String) : String :=
  let cs := s.toList
  let lead := cs.takeWhile (fun c => c == '.')
  let rest := cs.drop lead.length
  if rest.any (fun c => c == '.') then
    String.mk (lead ++ ((rest.reverse.dropWhile (fun c => c != '.')).drop 1).reverse)
  else s

/-- Stable insertion of `x` into `l` by integer key: `x` goes in front of the
first element whose key is not smaller, so among equal keys earlier list
elements stay earlier (Python's `sorted` is stable). -/
def stIns {α : Type} (key : α → Int) (x : α) : List α → List α
  | [] => [x]
  | y :: ys => if key x ≤ key y then x :: y :: ys else y :: stIns key x ys

/-- Stable insertion sort by integer key, embedding Python's `sorted(l, key=...)`. -/
def stSort {α : Type} (key : α → Int) : List α → List α
  | [] => []
  | x :: xs => stIns key x (stSort key xs)

theorem filter_stIns {α : Type} (key : α → Int) (x : α) (l : List α) (k : Int) :
    (stIns key x l).filter (fun a => key a == k) =
      if key x = k then x :: l.filter (fun a => key a == k)
      else l.filter (fun a => key a == k) := by
  induction l with
  | nil =>
    by_cases hxk : key x = k <;> simp [stIns, List.filter_cons, hxk]
  | cons y ys ih =>
    by_cases hxy : key x ≤ key y
    · have hstep : stIns key x (y :: ys) = x :: y :: ys := by
        simp [stIns, hxy]
      by_cases hxk : key x = k <;> by_cases hyk : key y = k <;>
        simp [hstep, List.filter_cons, hxk, hyk]
    · have hlt : key y < key x := lt_of_not_le hxy
      have hstep : stIns key x (y :: ys) = y :: stIns key x ys := by
        simp [stIns, hxy]
      by_cases hyk : key y = k
      · have hxk : ¬ key x = k := by omega
        simp [hstep, List.filter_cons, hyk, hxk, ih]
      · by_cases hxk : key x = k <;>
          simp [hstep, List.filter_cons, hyk, hxk, ih]

theorem filter_stSort {α : Type} (key : α → Int) (l : List α) (k : Int) :
    (stSort key l).filter (fun a => key a == k) = l.filter (fun a => key a == k) := by
  induction l with
  | nil => rfl
  | cons x xs ih =>
    rw [stSort, filter_stIns, ih]
    by_cases hxk : key x = k <;> simp [hxk, List.filter_cons]

theorem stIns_perm {α : Type} (key : α → Int) (x : α) (l : List α) :
    List.Perm (stIns key x l) (x :: l) := by
  induction l with
  | nil => rfl
  | cons y ys ih =>
    by_cases hxy : key x ≤ key y
    · simp [stIns, hxy]
    · have hstep : stIns key x (y :: ys) = y :: stIns key x ys := by
        simp [stIns, hxy]
      rw [hstep]
      exact List.Perm.trans (List.Perm.cons y ih) (List.Perm.swap x y ys)

theorem stSort_perm {α : Type} (key : α → Int) (l : List α) :
    List.Perm (stSort key l) l := by
  induction l with
  | nil => rfl
  | cons x xs ih =>
    exact List.Perm.trans (stIns_perm key x (stSort key xs)) (List.Perm.cons x ih)

/-- Embeds Python's `max` on a list of ints (the guarded uses are on nonempty
lists; the `[]` value 0 is never relied on). -/
def maxOf : List Int → Int
  | [] => 0
  | x :: xs => xs.foldl max x

theorem le_foldl_max_init (l : List Int) (a : Int) : a ≤ l.foldl max a := by
  induction l generalizing a with
  | nil => exact le_refl a
  | cons y ys ih =>
    calc a ≤ max a y := le_max_left a y
    _ ≤ ys.foldl max (max a y) := ih (max a y)

theorem foldl_max_le {l : List Int} {a x : Int} (hx : x ∈ l) : x ≤ l.foldl max a := by
  induction l generalizing a with
  | nil => cases hx
  | cons y ys ih =>
    rcases List.mem_cons.mp hx with h | h
    · subst h
      calc x ≤ max a x := le_max_right a x
      _ ≤ ys.foldl max (max a x) := le_foldl_max_init ys (max a x)
    · exact ih h

theorem foldl_max_mem (l : List Int) (a : Int) : l.foldl max a = a ∨ l.foldl max a ∈ l := by
  induction l generalizing a with
  | nil => exact Or.inl rfl
  | cons y ys ih =>
    rcases ih (max a y) with h | h
    · rcases max_choice a y with hm | hm
      · exact Or.inl (by rw [List.foldl_cons, h, hm])
      · exact Or.inr (by rw [List.foldl_cons, h, hm]; exact List.mem_cons_self y ys)
    · exact Or.inr (List.mem_cons_of_mem y h)

theorem mem_le_maxOf {l : List Int} {x : Int} (hx : x ∈ l) : x ≤ maxOf l := by
  cases l with
  | nil => cases hx
  | cons y ys =>
    rcases List.mem_cons.mp hx with h | h
    · subst h; exact le_foldl_max_init ys x
    · exact foldl_max_le h

theorem maxOf_mem {l : List Int} (h : l ≠ []) : maxOf l ∈ l := by
  cases l with
  | nil => exact absurd rfl h
  | cons y ys =>
    rcases foldl_max_mem ys y with h1 | h1
    · exact List.mem_cons.mpr (Or.inl h1)
    · exact List.mem_cons_of_mem y h1

theorem maxOf_perm {l l' : List Int} (hp : List.Perm l l') (hne : l ≠ []) :
    maxOf l = maxOf l' := by
  have hne' : l' ≠ [] := by
    intro h; subst h; exact hne (List.Perm.eq_nil hp)
  have h1 : maxOf l ≤ maxOf l' := mem_le_maxOf (hp.mem_iff.mp (maxOf_mem hne))
  have h2 : maxOf l' ≤ maxOf l := mem_le_maxOf (hp.mem_iff.mpr (maxOf_mem hne'))
  omega

/-- Last element of `l` satisfying `p`, if any: the element whose write survives
a left-to-right pass. -/
def lastW {α : Type} (p : α → Bool) : List α → Option α
  | [] => none
  | x :: xs =>
    match lastW p xs with
    | some y => some y
    | none => if p x then some x else none

theorem lastW_congr {α : Type} {p q : α → Bool} {l : List α}
    (h : ∀ x ∈ l, p x = q x) : lastW p l = lastW q l := by
  induction l with
  | nil => rfl
  | cons x xs ih =>
    have hx : p x = q x := h x (List.mem_cons_self x xs)
    have hrest : lastW p xs = lastW q xs :=
      ih (fun y hy => h y (List.mem_cons_of_mem x hy))
    simp [lastW, hrest, hx]

/-- Image record of a COCO document (`images` entry: id, file_name, height, width). -/
structure ImageRec where
  id : Nat
  file_name : String
  height : Nat
  width : Nat
deriving DecidableEq

/-- Annotation record of a COCO document. `segmentation` is the list of
flattened polygon coordinate lists, exactly as in the JSON. -/
structure AnnRec where
  id : Nat
  image_id : Nat
  category_id : Nat
  segmentation : List (List Int)
  bbox : List Nat
  area : Nat
  iscrowd : Nat
deriving DecidableEq

/-- COCO-style document: the three components the conversion code reads and
writes (the constant `info`/`licenses` headers carry no data the code ever
reads back and are omitted). -/
structure CocoDoc where
  categories : List (Nat × String)
  images : List ImageRec
  annotations : List AnnRec
deriving DecidableEq

/-- 2D label buffer: value at (row, col). -/
def Mask : Type := Nat → Nat → Nat

/-- All-background buffer (`np.zeros`). -/
def zeroMask : Mask := fun _ _ => 0

/-- Output volume of the decoder: `np.zeros((height, width, num_slices))`
progressively filled slice by slice. -/
structure DecVolume where
  height : Nat
  width : Nat
  depth : Nat
  slices : Nat → Mask

/-- Splits a character list on a separator character, Python `str.split(sep)`
with a one-character separator: consecutive separators yield empty fields. -/
def splitOnCh (ch : Char) : List Char → List (List Char)
  | [] => [[]]
  | c :: cs =>
    let r := splitOnCh ch cs
    if c == ch then [] :: r
    else
      match r with
      | [] => [[c]]
      | g :: gs => (c :: g) :: gs

/-- Last `_`-separated token of a filename's root (the candidate slice index). -/
def lastTok (filename : String) : String :=
  String.mk ((splitOnCh '_' (splitextBase filename).toList).getLastD [])

/-- Embeds `extract_slice_index` from `convert_coco_annotations_to_nii`:
`int(os.path.splitext(filename)[0].split('_')[-1])`, with `ValueError`
caught and turned into 0. -/
def extract_slice_index (filename : String) : Int :=
  match pythonInt (lastTok filename) with
  | some n => n
  | none => 0

/-- Pairs up a flattened coordinate list (`np.reshape((-1, 2))`); an odd
length raises, modelled as `none`. -/
def toPairs : List Int → Option (List (Int × Int))
  | [] => some []
  | [_] => none
  | x :: y :: rest => (toPairs rest).map (fun l => (x, y) :: l)

/-- Edges of a closed polygon given by its vertex list. -/
def polyEdges (pts : List (Int × Int)) : List ((Int × Int) × (Int × Int)) :=
  match pts with
  | [] => []
  | p :: _ => pts.zip (pts.drop 1 ++ [p])

/-- Whether the horizontal ray from pixel (x, y) rightwards crosses edge `e`,
with the usual half-open vertical rule and exact integer arithmetic. -/
def crossesRay (x y : Int) (e : (Int × Int) × (Int × Int)) : Bool :=
  let x1 := e.1.1
  let y1 := e.1.2
  let x2 := e.2.1
  let y2 := e.2.2
  let num := (x1 - x) * (y2 - y1) + (y - y1) * (x2 - x1)
  (decide (y1 ≤ y) && decide (y < y2) && decide (0 < num)) ||
  (decide (y2 ≤ y) && decide (y < y1) && decide (num < 0))

/-- Even-odd point-in-polygon test: model of the region filled by
`cv2.fillPoly` for one polygon. -/
def inPoly (pts : List (Int × Int)) (x y : Int) : Bool :=
  (polyEdges pts).countP (crossesRay x y) % 2 == 1

/-- Models one `cv2.fillPoly(slice_mask, [pts], color=category_id)` call:
pixels of the polygon's region inside the (h, w) buffer are set to the
category id, all others keep their previous value. -/
def fillPoly (h w : Nat) (m : Mask) (pts : List (Int × Int)) (cat : Nat) : Mask :=
  fun r c => if r < h ∧ c < w ∧ inPoly pts (c : Int) (r : Int) = true then cat else m r c

/-- Decoder failure modes (the Python exceptions the function can raise). -/
inductive DecErr where
  /-- `ValueError("No images found in COCO annotations.")` -/
  | noImages
  /-- `ValueError` from `np.zeros` on a negative slice count -/
  | negDims
  /-- `IndexError` assigning a slice outside the volume's z range -/
  | indexErr
  /-- `ValueError` from `reshape((-1, 2))` on an odd-length polygon -/
  | reshapeErr
deriving DecidableEq

/-- Processes one polygon of one annotation inside the decoder loop:
`if len(poly) < 6: continue` then reshape and fill. -/
def fillSegPoly (h w : Nat) (cat : Nat) (m : Mask) (poly : List Int) : Except DecErr Mask :=
  if poly.length < 6 then .ok m
  else
    match toPairs poly with
    | none => .error .reshapeErr
    | some pts => .ok (fillPoly h w m pts cat)

/-- Processes one annotation: fill every polygon of its segmentation in order. -/
def fillAnn (h w : Nat) (m : Mask) (ann : AnnRec) : Except DecErr Mask :=
  ann.segmentation.foldlM (fillSegPoly h w ann.category_id) m

/-- Annotations grouped on an image id, in document order (the
`annotations_by_image` dictionary). -/
def annsFor (doc : CocoDoc) (imgId : Nat) : List AnnRec :=
  doc.annotations.filter (fun a => a.image_id == imgId)

/-- Builds the `slice_mask` for one image record: all its annotations filled
over an all-zero buffer, in order. -/
def rasterizeImg (doc : CocoDoc) (h w : Nat) (img : ImageRec) : Except DecErr Mask :=
  (annsFor doc img.id).foldlM (fillAnn h w) zeroMask

/-- Effective z index of a write `segmentation_volume[:, :, si]` under numpy's
negative-index wrapping. -/
def effIdx (num si : Int) : Int := if si < 0 then num + si else si

/-- Models `segmentation_volume[:, :, slice_index] = slice_mask`: in-range
(possibly negative, wrapped) indices assign the slice, out-of-range indices
raise `IndexError`. -/
def writeSlice (num : Int) (v : DecVolume) (si : Int) (m : Mask) : Except DecErr DecVolume :=
  let e := effIdx num si
  if 0 ≤ e ∧ e < num then
    .ok { v with slices := fun k => if k = e.toNat then m else v.slices k }
  else .error .indexErr

/-- Main decoder loop: for each image record (in sorted order) rasterize its
annotations and store the buffer at the extracted slice index. -/
def convertGo (doc : CocoDoc) (h w : Nat) (num : Int) :
    List ImageRec → DecVolume → Except DecErr DecVolume
  | [], v => .ok v
  | img :: rest, v =>
    match rasterizeImg doc h w img with
    | .error e => .error e
    | .ok m =>
      match writeSlice num v (extract_slice_index img.file_name) m with
      | .error e => .error e
      | .ok v' => convertGo doc h w num rest v'

/-- Sort key used on image records. -/
def imgKey (i : ImageRec) : Int := extract_slice_index i.file_name

/-- Embeds `convert_coco_annotations_to_nii` (the part producing the volume;
the final `nib.save` writes it out unchanged): reject an empty image list,
sort images by extracted slice index, allocate
`np.zeros((height, width, max_index + 1))` from the first sorted record's
height/width, then fill slice by slice. -/
def convert_coco_annotations_to_nii (doc : CocoDoc) : Except DecErr DecVolume :=
  match doc.images with
  | [] => .error .noImages
  | i0 :: irest =>
    let sortedImgs := stSort imgKey (i0 :: irest)
    let num := maxOf (sortedImgs.map imgKey) + 1
    let h := (sortedImgs.headD i0).height
    let w := (sortedImgs.headD i0).width
    if num < 0 then .error .negDims
    else convertGo doc h w num sortedImgs
      { height := h, width := w, depth := num.toNat, slices := fun _ => zeroMask }

/-- Image records of `doc` in the order the decoder processes them. -/
def sortedImages (doc : CocoDoc) : List ImageRec := stSort imgKey doc.images

/-- Slice count the decoder allocates: maximum extracted index plus one. -/
def numSlices (doc : CocoDoc) : Int := maxOf ((sortedImages doc).map imgKey) + 1

/-- Height the decoder reads off the first sorted image record. -/
def docH (doc : CocoDoc) : Nat :=
  match doc.images with
  | [] => 0
  | i0 :: _ => ((sortedImages doc).headD i0).height

/-- Width the decoder reads off the first sorted image record. -/
def docW (doc : CocoDoc) : Nat :=
  match doc.images with
  | [] => 0
  | i0 :: _ => ((sortedImages doc).headD i0).width

theorem lastW_eq_getLast_filter {α : Type} (p : α → Bool) (l : List α) :
    lastW p l = (l.filter p).getLast? := by
  induction l with
  | nil => rfl
  | cons x xs ih =>
    rw [List.filter_cons]
    cases hxs : lastW p xs with
    | some y =>
      have hy : (xs.filter p).getLast? = some y := by rw [← ih, hxs]
      obtain ⟨z, zs, hfp⟩ : ∃ z zs, xs.filter p = z :: zs := by
        cases hfp : xs.filter p with
        | nil => rw [hfp] at hy; exact Option.noConfusion hy
        | cons z zs => exact ⟨z, zs, rfl⟩
      rw [hfp] at hy
      by_cases hpx : p x
      · have hcc : (x :: z :: zs).getLast? = (z :: zs).getLast? := rfl
        simp [lastW, hxs, hpx, hfp, hcc, hy]
      · simp [lastW, hxs, hpx, hfp, hy]
    | none =>
      have hfp : xs.filter p = [] := by
        have hy : (xs.filter p).getLast? = none := by rw [← ih, hxs]
        exact List.getLast?_eq_none_iff.mp hy
      by_cases hpx : p x
      · simp [lastW, hxs, hpx, hfp]
      · simp [lastW, hxs, hpx, hfp]

theorem lastW_stSort (key : α → Int) (l : List α) (k : Int) :
    lastW (fun a => key a == k) (stSort key l) = lastW (fun a => key a == k) l := by
  rw [lastW_eq_getLast_filter, lastW_eq_getLast_filter, filter_stSort]

theorem writeSlice_ok {num : Int} {v v' : DecVolume} {si : Int} {m : Mask}
    (h : writeSlice num v si m = .ok v') :
    0 ≤ effIdx num si ∧ effIdx num si < num ∧
      v' = { v with slices := fun k => if k = (effIdx num si).toNat then m else v.slices k } := by
  unfold writeSlice at h
  by_cases hc : 0 ≤ effIdx num si ∧ effIdx num si < num
  · refine ⟨hc.1, hc.2, ?_⟩
    rw [if_pos hc] at h
    exact (Except.ok.injEq _ _).mp h |>.symm
  · rw [if_neg hc] at h
    exact Except.noConfusion h

theorem convertGo_ok_spec (doc : CocoDoc) (h w : Nat) (num : Int) :
    ∀ (l : List ImageRec) (v v' : DecVolume),
      convertGo doc h w num l v = .ok v' →
      (v'.height = v.height ∧ v'.width = v.width ∧ v'.depth = v.depth) ∧
      ∀ k : Nat,
        (lastW (fun i => effIdx num (imgKey i) == (k : Int)) l = none →
          v'.slices k = v.slices k) ∧
        (∀ wimg, lastW (fun i => effIdx num (imgKey i) == (k : Int)) l = some wimg →
          ∃ m, rasterizeImg doc h w wimg = .ok m ∧ v'.slices k = m) := by
  intro l
  induction l with
  | nil =>
    intro v v' hgo
    have hv : v = v' := by
      unfold convertGo at hgo
      exact (Except.ok.injEq _ _).mp hgo
    subst hv
    exact ⟨⟨rfl, rfl, rfl⟩, fun k => ⟨fun _ => rfl, fun wimg hw => Option.noConfusion hw⟩⟩
  | cons img rest ih =>
    intro v v' hgo
    rw [convertGo] at hgo
    cases hras : rasterizeImg doc h w img with
    | error e =>
      rw [hras] at hgo
      exact Except.noConfusion hgo
    | ok m =>
      rw [hras] at hgo
      have hgo1 : (match writeSlice num v (extract_slice_index img.file_name) m with
          | .error e => (.error e : Except DecErr DecVolume)
          | .ok v1 => convertGo doc h w num rest v1) = .ok v' := hgo
      cases hwr : writeSlice num v (extract_slice_index img.file_name) m with
      | error e =>
        rw [hwr] at hgo1
        exact Except.noConfusion hgo1
      | ok v1 =>
        rw [hwr] at hgo1
        obtain ⟨hd, hrest⟩ := ih v1 v' hgo1
        obtain ⟨he0, helt, hv1⟩ := writeSlice_ok hwr
        have hv1s : ∀ k : Nat, v1.slices k =
            if k = (effIdx num (extract_slice_index img.file_name)).toNat then m
            else v.slices k := by
          intro k; rw [hv1]
        refine ⟨⟨by rw [hd.1, hv1], by rw [hd.2.1, hv1], by rw [hd.2.2, hv1]⟩, ?_⟩
        intro k
        constructor
        · intro hnone
          rw [lastW] at hnone
          cases hlr : lastW (fun i => effIdx num (imgKey i) == (k : Int)) rest with
          | some y => rw [hlr] at hnone; exact Option.noConfusion hnone
          | none =>
            rw [hlr] at hnone
            have hpi : ¬ (effIdx num (imgKey img) == (k : Int)) = true := by
              intro hp
              rw [if_pos hp] at hnone
              exact Option.noConfusion hnone
            have := (hrest k).1 hlr
            rw [this, hv1s k]
            have hkne : ¬ k = (effIdx num (extract_slice_index img.file_name)).toNat := by
              intro hk
              apply hpi
              have : effIdx num (imgKey img) = (k : Int) := by
                rw [imgKey, hk, Int.toNat_of_nonneg he0]
              simpa using this
            rw [if_neg hkne]
        · intro wimg hsome
          rw [lastW] at hsome
          cases hlr : lastW (fun i => effIdx num (imgKey i) == (k : Int)) rest with
          | some y =>
            rw [hlr] at hsome
            have hwy : wimg = y := by
              have := hsome
              simp only [Option.some.injEq] at this
              exact this.symm
            subst hwy
            exact (hrest k).2 wimg hlr
          | none =>
            rw [hlr] at hsome
            have hpi : (effIdx num (imgKey img) == (k : Int)) = true := by
              by_contra hp
              rw [if_neg hp] at hsome
              exact Option.noConfusion hsome
            have hwimg : wimg = img := by
              rw [if_pos hpi] at hsome
              simp only [Option.some.injEq] at hsome
              exact hsome.symm
            refine ⟨m, by rw [hwimg]; exact hras, ?_⟩
            have := (hrest k).1 hlr
            rw [this, hv1s k]
            have hkeq : k = (effIdx num (extract_slice_index img.file_name)).toNat := by
              have h1 : effIdx num (imgKey img) = (k : Int) := by simpa using hpi
              rw [imgKey] at h1
              rw [h1]
              simp
            rw [if_pos hkeq]

/-- Structure of a successful decoder run: the image list is nonempty, the
volume carries the first sorted record's height/width, its depth is the
maximum extracted index plus one, and each slice holds the rasterization of
the last image record (in processing order) whose effective write index is
that slice — or stays all zero when no record writes it. -/
theorem convert_ok_parts {doc : CocoDoc} {vol : DecVolume}
    (hok : convert_coco_annotations_to_nii doc = .ok vol) :
    doc.images ≠ [] ∧
    vol.height = docH doc ∧ vol.width = docW doc ∧
    0 ≤ numSlices doc ∧ (vol.depth : Int) = numSlices doc ∧
    ∀ k : Nat,
      (lastW (fun i => effIdx (numSlices doc) (imgKey i) == (k : Int))
          (sortedImages doc) = none → vol.slices k = zeroMask) ∧
      (∀ wimg, lastW (fun i => effIdx (numSlices doc) (imgKey i) == (k : Int))
          (sortedImages doc) = some wimg →
        ∃ m, rasterizeImg doc (docH doc) (docW doc) wimg = .ok m ∧ vol.slices k = m) := by
  cases himg : doc.images with
  | nil =>
    rw [convert_coco_annotations_to_nii, himg] at hok
    exact Except.noConfusion hok
  | cons i0 irest =>
    rw [convert_coco_annotations_to_nii, himg] at hok
    simp only at hok
    have hsi : stSort imgKey (i0 :: irest) = sortedImages doc := by
      rw [sortedImages, himg]
    have hnum : maxOf ((stSort imgKey (i0 :: irest)).map imgKey) + 1 = numSlices doc := by
      rw [numSlices, hsi]
    have hH : ((stSort imgKey (i0 :: irest)).headD i0).height = docH doc := by
      rw [docH, himg, hsi]
    have hW : ((stSort imgKey (i0 :: irest)).headD i0).width = docW doc := by
      rw [docW, himg, hsi]
    by_cases hneg : maxOf ((stSort imgKey (i0 :: irest)).map imgKey) + 1 < 0
    · rw [if_pos hneg] at hok
      exact Except.noConfusion hok
    · rw [if_neg hneg] at hok
      obtain ⟨⟨hh, hw, hd⟩, hk⟩ := convertGo_ok_spec doc _ _ _ _ _ _ hok
      have h0 : (0:Int) ≤ numSlices doc := by rw [← hnum]; omega
      refine ⟨List.cons_ne_nil i0 irest,
        by rw [hh, ← hH], by rw [hw, ← hW], h0, ?_, ?_⟩
      · rw [hd]
        simp only
        rw [hnum] at *
        exact Int.toNat_of_nonneg h0
      · intro k
        rw [← hsi, ← hnum, ← hH, ← hW]
        exact hk k

theorem lastW_none {α : Type} {p : α → Bool} {l : List α}
    (h : ∀ x ∈ l, p x = false) : lastW p l = none := by
  induction l with
  | nil => rfl
  | cons x xs ih =>
    have hx : p x = false := h x (List.mem_cons_self x xs)
    have hrest : lastW p xs = none :=
      ih (fun y hy => h y (List.mem_cons_of_mem x hy))
    simp [lastW, hrest, hx]

theorem effIdx_of_nonneg {num si : Int} (h : 0 ≤ si) : effIdx num si = si := by
  rw [effIdx, if_neg (by omega)]

/-- On a document all of whose extracted indices are non-negative, the last
record writing slice `k` (in processing order) is the last record of the
document whose extracted index is `k` — numpy index wrapping never fires and
the sort is stable. -/
theorem lastW_sorted_eff_eq {doc : CocoDoc} (hnn : ∀ i ∈ doc.images, 0 ≤ imgKey i)
    (kk : Int) :
    lastW (fun i => effIdx (numSlices doc) (imgKey i) == kk) (sortedImages doc) =
      lastW (fun i => imgKey i == kk) doc.images := by
  have hmem : ∀ i ∈ sortedImages doc, i ∈ doc.images := by
    intro i hi
    exact (stSort_perm imgKey doc.images).mem_iff.mp hi
  have hcongr : lastW (fun i => effIdx (numSlices doc) (imgKey i) == kk) (sortedImages doc) =
      lastW (fun i => imgKey i == kk) (sortedImages doc) := by
    apply lastW_congr
    intro i hi
    rw [effIdx_of_nonneg (hnn i (hmem i hi))]
  rw [hcongr]
  exact lastW_stSort imgKey doc.images kk

/-- Whether one flattened polygon of a segmentation actually paints pixel
(row r, col c): it passes the decoder's length guard, reshapes, and the pixel
lies in its filled region. -/
def polyCoversB (poly : List Int) (r c : Nat) : Bool :=
  decide (6 ≤ poly.length) &&
    (match toPairs poly with
     | some pts => inPoly pts (c : Int) (r : Int)
     | none => false)

/-- Whether some polygon of an annotation paints pixel (r, c). -/
def annCoversB (ann : AnnRec) (r c : Nat) : Bool :=
  ann.segmentation.any (fun poly => polyCoversB poly r c)

theorem fillSegPoly_ok_val {h w cat : Nat} {m m1 : Mask} {poly : List Int} {r c : Nat}
    (hst : fillSegPoly h w cat m poly = .ok m1) :
    (polyCoversB poly r c = true → r < h → c < w → m1 r c = cat) ∧
    (polyCoversB poly r c = false → m1 r c = m r c) := by
  rw [fillSegPoly] at hst
  by_cases hlen : poly.length < 6
  · rw [if_pos hlen] at hst
    have hm : m = m1 := (Except.ok.injEq _ _).mp hst
    subst hm
    constructor
    · intro hcov
      rw [polyCoversB] at hcov
      have : ¬ 6 ≤ poly.length := by omega
      simp [this] at hcov
    · intro _; rfl
  · rw [if_neg hlen] at hst
    cases htp : toPairs poly with
    | none => rw [htp] at hst; exact Except.noConfusion hst
    | some pts =>
      rw [htp] at hst
      have hm : fillPoly h w m pts cat = m1 := (Except.ok.injEq _ _).mp hst
      subst hm
      constructor
      · intro hcov hr hc
        rw [polyCoversB, htp] at hcov
        have hin : inPoly pts (c : Int) (r : Int) = true := by
          have := hcov
          simp [polyCoversB, htp] at this
          exact this.2
        rw [fillPoly, if_pos ⟨hr, hc, hin⟩]
      · intro hcov
        rw [polyCoversB, htp] at hcov
        have hle : 6 ≤ poly.length := by omega
        have hin : ¬ inPoly pts (c : Int) (r : Int) = true := by
          simp [hle] at hcov
          simp [hcov]
        rw [fillPoly, if_neg (by intro hx; exact hin hx.2.2)]

theorem fillPolysFold_val {h w cat : Nat} :
    ∀ (polys : List (List Int)) (m m' : Mask) (r c : Nat),
      polys.foldlM (fillSegPoly h w cat) m = .ok m' →
      ((polys.any (fun q => polyCoversB q r c)) = true → r < h → c < w → m' r c = cat) ∧
      ((polys.any (fun q => polyCoversB q r c)) = false → m' r c = m r c) := by
  intro polys
  induction polys with
  | nil =>
    intro m m' r c hok
    have hok2 : (Except.ok m : Except DecErr Mask) = .ok m' := hok
    have hm : m = m' := (Except.ok.injEq _ _).mp hok2
    subst hm
    exact ⟨fun hany => by simp at hany, fun _ => rfl⟩
  | cons p ps ih =>
    intro m m' r c hok
    rw [List.foldlM_cons] at hok
    cases hst : fillSegPoly h w cat m p with
    | error e =>
      rw [hst] at hok
      exact Except.noConfusion hok
    | ok m1 =>
      rw [hst] at hok
      have hok' : ps.foldlM (fillSegPoly h w cat) m1 = .ok m' := hok
      obtain ⟨ihc, ihn⟩ := ih m1 m' r c hok'
      obtain ⟨stc, stn⟩ := fillSegPoly_ok_val hst
      constructor
      · intro hany hr hc
        rw [List.any_cons] at hany
        cases hps : ps.any (fun q => polyCoversB q r c) with
        | true => exact ihc hps hr hc
        | false =>
          have hp : polyCoversB p r c = true := by
            rw [hps] at hany
            simpa using hany
          rw [ihn hps]
          exact stc hp hr hc
      · intro hany
        rw [List.any_cons] at hany
        have hp : polyCoversB p r c = false := by
          cases hpv : polyCoversB p r c
          · rfl
          · rw [hpv] at hany; simp at hany
        have hps : ps.any (fun q => polyCoversB q r c) = false := by
          cases hpv : ps.any (fun q => polyCoversB q r c)
          · rfl
          · rw [hpv] at hany; simp at hany
        rw [ihn hps]
        exact stn hp

theorem fillAnn_ok_val {h w : Nat} {m m1 : Mask} {ann : AnnRec} {r c : Nat}
    (hok : fillAnn h w m ann = .ok m1) :
    (annCoversB ann r c = true → r < h → c < w → m1 r c = ann.category_id) ∧
    (annCoversB ann r c = false → m1 r c = m r c) := by
  rw [fillAnn] at hok
  exact fillPolysFold_val ann.segmentation m m1 r c hok

/-- Value of the rasterized buffer at a pixel painted by the second of an
image's two annotations: the second one wins. -/
theorem rasterize_two_val {doc : CocoDoc} {h w : Nat} {img : ImageRec} {a b : AnnRec}
    {m : Mask} {r c : Nat}
    (hok : rasterizeImg doc h w img = .ok m)
    (hann : annsFor doc img.id = [a, b])
    (hbcov : annCoversB b r c = true) (hr : r < h) (hc : c < w) :
    m r c = b.category_id := by
  rw [rasterizeImg, hann] at hok
  rw [List.foldlM_cons] at hok
  cases hfa : fillAnn h w zeroMask a with
  | error e => rw [hfa] at hok; exact Except.noConfusion hok
  | ok m1 =>
    rw [hfa] at hok
    have hok1 : [b].foldlM (fillAnn h w) m1 = .ok m := hok
    rw [List.foldlM_cons] at hok1
    cases hfb : fillAnn h w m1 b with
    | error e => rw [hfb] at hok1; exact Except.noConfusion hok1
    | ok m2 =>
      rw [hfb] at hok1
      have hok2 : (Except.ok m2 : Except DecErr Mask) = .ok m := hok1
      have hm2 : m2 = m := (Except.ok.injEq _ _).mp hok2
      subst hm2
      exact (fillAnn_ok_val hfb).1 hbcov hr hc

/-- Volume produced by a successful decode (dummy on failure); lets concrete
checks name the decoder's output. -/
def volOf (doc : CocoDoc) : DecVolume :=
  match convert_coco_annotations_to_nii doc with
  | .ok v => v
  | .error _ => { height := 0, width := 0, depth := 0, slices := fun _ => zeroMask }

/-- Document refuting claim C5 as stated: its single image's filename carries
the trailing token "-1", which Python's `int()` parses, so the extracted
slice index is -1, `num_slices` is 0, and the slice assignment raises
`IndexError` instead of producing a volume. -/
def docC5neg : CocoDoc :=
  { categories := []
    images := [{ id := 0, file_name := "a_-1.png", height := 2, width := 2 }]
    annotations := [] }

/-- C5 counterexample: on a document with a non-empty image list the decoder
does not always produce a volume — with the extracted index -1 it raises an
`IndexError` (index -1 on an axis of size 0). -/
theorem C5_counterexample :
    convert_coco_annotations_to_nii docC5neg = .error DecErr.indexErr := rfl

/-- C5 (amended): for every COCO document whose extracted slice indices are
all non-negative and which the decoder accepts, the produced volume's depth
is the maximum extracted slice index plus one, and every slice index not
named by any image record is left entirely zero; a document with an empty
image list fails with the `ValueError` data error. -/
theorem C5_decoder_depth_and_gaps :
    (∀ (doc : CocoDoc) (vol : DecVolume),
      convert_coco_annotations_to_nii doc = .ok vol →
      (∀ i ∈ doc.images, 0 ≤ imgKey i) →
      ((vol.depth : Int) = maxOf (doc.images.map imgKey) + 1 ∧
        ∀ k : Nat, (∀ i ∈ doc.images, imgKey i ≠ (k : Int)) →
          ∀ r c : Nat, vol.slices k r c = 0)) ∧
    (∀ doc : CocoDoc, doc.images = [] →
      convert_coco_annotations_to_nii doc = .error DecErr.noImages) := by
  constructor
  · intro doc vol hok hnn
    obtain ⟨hne, hh, hw, h0, hdepth, hk⟩ := convert_ok_parts hok
    constructor
    · rw [hdepth, numSlices]
      have hperm : List.Perm ((sortedImages doc).map imgKey) (doc.images.map imgKey) :=
        (stSort_perm imgKey doc.images).map imgKey
      have hnel : (sortedImages doc).map imgKey ≠ [] := by
        intro hmape
        have hsnil : sortedImages doc = [] := List.map_eq_nil_iff.mp hmape
        have hp0 : List.Perm (sortedImages doc) doc.images := stSort_perm imgKey doc.images
        rw [hsnil] at hp0
        exact hne hp0.symm.eq_nil
      rw [maxOf_perm hperm hnel]
    · intro k hun r c
      have hnone : lastW (fun i => effIdx (numSlices doc) (imgKey i) == (k : Int))
          (sortedImages doc) = none := by
        rw [lastW_sorted_eff_eq hnn]
        apply lastW_none
        intro i hi
        exact beq_eq_false_iff_ne.mpr (hun i hi)
      rw [(hk k).1 hnone]
      rfl
  · intro doc h
    rw [convert_coco_annotations_to_nii, h]

/-- Document exercising the amended C5: images name slices 0 and 2, nothing
names slice 1, so the volume has depth 3 with slice 1 all zero. -/
def docC5w : CocoDoc :=
  { categories := []
    images := [{ id := 0, file_name := "s_0.png", height := 1, width := 1 },
               { id := 1, file_name := "s_2.png", height := 1, width := 1 }]
    annotations := [] }

theorem C5_witness :
    ((volOf docC5w).depth : Int) = 3 ∧ (volOf docC5w).slices 1 0 0 = 0 := by
  have H := C5_decoder_depth_and_gaps.1 docC5w (volOf docC5w) rfl (by decide)
  exact ⟨by rw [H.1]; decide, H.2 1 (by decide) 0 0⟩

/-- C6: in a document whose image carries exactly two annotations with
overlapping filled regions, the slice the decoder writes for that image holds
the later-processed annotation's category id at every overlap pixel
(last-write-wins).  The image is required to be the unique record with its
extracted slice index (otherwise C10's last-record rule overwrites the slice)
and the document is required to decode. -/
theorem C6_last_write_wins
    (doc : CocoDoc) (vol : DecVolume) (img : ImageRec) (a b : AnnRec) (r c : Nat)
    (hok : convert_coco_annotations_to_nii doc = .ok vol)
    (hnn : ∀ i ∈ doc.images, 0 ≤ imgKey i)
    (huniq : doc.images.filter (fun i => imgKey i == imgKey img) = [img])
    (hann : annsFor doc img.id = [a, b])
    (_hacov : annCoversB a r c = true)
    (hbcov : annCoversB b r c = true)
    (hr : r < vol.height) (hc : c < vol.width) :
    vol.slices (imgKey img).toNat r c = b.category_id := by
  obtain ⟨hne, hh, hw, h0, hdepth, hk⟩ := convert_ok_parts hok
  have himgMem : img ∈ doc.images := by
    have hmemf : img ∈ doc.images.filter (fun i => imgKey i == imgKey img) := by
      rw [huniq]
      exact List.mem_cons_self img []
    exact List.mem_of_mem_filter hmemf
  have hkey0 : 0 ≤ imgKey img := hnn img himgMem
  have hcast : (((imgKey img).toNat : Nat) : Int) = imgKey img := Int.toNat_of_nonneg hkey0
  have hlast : lastW (fun i => effIdx (numSlices doc) (imgKey i) ==
      (((imgKey img).toNat : Nat) : Int)) (sortedImages doc) = some img := by
    rw [lastW_sorted_eff_eq hnn]
    have hcongr : lastW (fun i => imgKey i == (((imgKey img).toNat : Nat) : Int)) doc.images =
        lastW (fun i => imgKey i == imgKey img) doc.images := by
      apply lastW_congr
      intro i _
      rw [hcast]
    rw [hcongr, lastW_eq_getLast_filter, huniq]
    rfl
  obtain ⟨m, hras, hs⟩ := (hk ((imgKey img).toNat)).2 img hlast
  rw [hs]
  exact rasterize_two_val hras hann hbcov (hh ▸ hr) (hw ▸ hc)

/-- Document exercising C6: one image (slice 0) with two annotations whose
square polygons coincide, categories 2 then 3. -/
def docC6w : CocoDoc :=
  { categories := []
    images := [{ id := 0, file_name := "s_0.png", height := 4, width := 4 },
               { id := 1, file_name := "s_1.png", height := 4, width := 4 }]
    annotations := [{ id := 0, image_id := 0, category_id := 2,
                      segmentation := [[0, 0, 3, 0, 3, 3, 0, 3]],
                      bbox := [0, 0, 4, 4], area := 16, iscrowd := 0 },
                    { id := 1, image_id := 0, category_id := 3,
                      segmentation := [[0, 0, 3, 0, 3, 3, 0, 3]],
                      bbox := [0, 0, 4, 4], area := 16, iscrowd := 0 }] }

theorem C6_witness : (volOf docC6w).slices 0 1 1 = 3 := by
  have H := C6_last_write_wins docC6w (volOf docC6w)
    { id := 0, file_name := "s_0.png", height := 4, width := 4 }
    { id := 0, image_id := 0, category_id := 2,
      segmentation := [[0, 0, 3, 0, 3, 3, 0, 3]],
      bbox := [0, 0, 4, 4], area := 16, iscrowd := 0 }
    { id := 1, image_id := 0, category_id := 3,
      segmentation := [[0, 0, 3, 0, 3, 3, 0, 3]],
      bbox := [0, 0, 4, 4], area := 16, iscrowd := 0 }
    1 1 rfl (by decide) (by decide) (by decide) (by decide) (by decide)
    (by decide) (by decide)
  exact H

/-- C10: a filename whose trailing underscore-separated token Python's
`int()` rejects is silently assigned slice index 0, and slice 0 of the output
volume ends up holding the rasterization of the last record (in document
order, by sort stability) whose extracted index is 0. -/
theorem C10_unparsed_token_goes_to_slice_zero
    (doc : CocoDoc) (vol : DecVolume) (wimg : ImageRec) (fname : String)
    (hok : convert_coco_annotations_to_nii doc = .ok vol)
    (hnn : ∀ i ∈ doc.images, 0 ≤ imgKey i)
    (hparse : pythonInt (lastTok fname) = none)
    (hlast : lastW (fun i => imgKey i == (0 : Int)) doc.images = some wimg) :
    extract_slice_index fname = 0 ∧
    ∃ m, rasterizeImg doc vol.height vol.width wimg = .ok m ∧ vol.slices 0 = m := by
  constructor
  · rw [extract_slice_index, hparse]
  · obtain ⟨hne, hh, hw, h0, hdepth, hk⟩ := convert_ok_parts hok
    have hl : lastW (fun i => effIdx (numSlices doc) (imgKey i) == ((0 : Nat) : Int))
        (sortedImages doc) = some wimg := by
      rw [lastW_sorted_eff_eq hnn]
      simpa using hlast
    rw [hh, hw]
    exact (hk 0).2 wimg hl

/-- 3D integer label volume (`nib.load(...).get_fdata().astype(np.uint8)`):
value at (row, col, slice). -/
structure Volume where
  H : Nat
  W : Nat
  D : Nat
  val : Nat → Nat → Nat → Nat

/-- Pixel values of slice `z` in row-major order. -/
def sliceVals (vol : Volume) (z : Nat) : List Nat :=
  ((List.range vol.H).map (fun r => (List.range vol.W).map (fun c => vol.val r c z))).join

/-- Sorted duplicate-free insertion (building block for `np.unique` / sorted sets). -/
def insUnique (x : Nat) : List Nat → List Nat
  | [] => [x]
  | y :: ys => if x < y then x :: y :: ys else if x = y then y :: ys else y :: insUnique x ys

/-- Sorted list of the distinct elements, embedding `sorted(set(...))` and
`np.unique`. -/
def sortedUnique (l : List Nat) : List Nat := l.foldr insUnique []

/-- Distinct values present in slice `z` (`np.unique(slice_2d)`). -/
def uniqueSliceVals (vol : Volume) (z : Nat) : List Nat :=
  sortedUnique (sliceVals vol z)

/-- Sorted distinct values over the whole volume: the encoder's
`label_values` set accumulated over all slices, then sorted. -/
def volLabelValues (vol : Volume) : List Nat :=
  sortedUnique (((List.range vol.D).map (fun z => sliceVals vol z)).join)

/-- Label table of `DATASET_CONFIGS["Dataset001_BrainTumour"]`. -/
def brainLabels : List (String × Nat) :=
  [("background", 0), ("edema", 1), ("non-enhancing tumor", 2), ("enhancing tumour", 3)]

/-- Label table of `DATASET_CONFIGS["Dataset002_Heart"]`. -/
def heartLabels : List (String × Nat) :=
  [("background", 0), ("left_atrium", 1)]

/-- Dataset selection of the encoder: `"Dataset002_Heart" if "la_" in
nifti_path else "Dataset001_BrainTumour"`, reduced to its label table. -/
def cfgLabels (nifti_path : String) : List (String × Nat) :=
  if strContains nifti_path "la_" then heartLabels else brainLabels

/-- Inverted label dictionary `{v: k for k, v in labels.items()}` as a lookup:
on duplicate values the later pair wins, as for a Python dict. -/
def idToName (tbl : List (String × Nat)) (i : Nat) : Option String :=
  match tbl.reverse.find? (fun q => q.2 == i) with
  | some q => some q.1
  | none => none

/-- Maximum of a nonempty list of naturals (`.max()`; 0 on the unused empty case). -/
def maxN : List Nat → Nat
  | [] => 0
  | x :: xs => xs.foldl max x

/-- Minimum of a nonempty list of naturals (`.min()`; 0 on the unused empty case). -/
def minN : List Nat → Nat
  | [] => 0
  | x :: xs => xs.foldl min x

/-- Coordinates (row, col) of pixels holding `lab`, row-major
(`np.argwhere(mask == label_id)`). -/
def coordsOf (mask : Nat → Nat → Nat) (hgt wdt lab : Nat) : List (Nat × Nat) :=
  ((List.range hgt).map (fun r =>
    ((List.range wdt).filter (fun c => mask r c == lab)).map (fun c => (r, c)))).join

/-- Embeds `get_bounding_box`: `[x_min, y_min, x_max - x_min + 1,
y_max - y_min + 1]` over the label's pixels, `None` when the label is absent.
The Python floats are exact on these integer values, so `Nat` entries model
them faithfully. -/
def get_bounding_box (mask : Nat → Nat → Nat) (hgt wdt lab : Nat) : Option (List Nat) :=
  match coordsOf mask hgt wdt lab with
  | [] => none
  | coords =>
    let rs := coords.map (fun q => q.1)
    let cs := coords.map (fun q => q.2)
    some [minN cs, minN rs, maxN cs - minN cs + 1, maxN rs - minN rs + 1]

/-- Pixel count of the label in the slice (`np.sum(label_mask == original_value)`). -/
def labArea (mask : Nat → Nat → Nat) (hgt wdt lab : Nat) : Nat :=
  (coordsOf mask hgt wdt lab).length

/-- Offsets of the 8 neighbours in clockwise screen order (x right, y down),
used by the border-following model of `cv2.findContours`. -/
def dirOff : Nat → Int × Int
  | 0 => (1, 0)
  | 1 => (1, 1)
  | 2 => (0, 1)
  | 3 => (-1, 1)
  | 4 => (-1, 0)
  | 5 => (-1, -1)
  | 6 => (0, -1)
  | _ => (1, -1)

/-- Neighbour of `p` in direction `d`. -/
def addOff (p : Int × Int) (d : Nat) : Int × Int :=
  (p.1 + (dirOff d).1, p.2 + (dirOff d).2)

/-- Direction index of a unit king-move offset. -/
def dirIdx (off : Int × Int) : Nat :=
  if off = (1, 0) then 0
  else if off = (1, 1) then 1
  else if off = (0, 1) then 2
  else if off = (-1, 1) then 3
  else if off = (-1, 0) then 4
  else if off = (-1, -1) then 5
  else if off = (0, -1) then 6
  else 7

/-- Scans up to `fuel` neighbours of `cur` clockwise starting at direction
`s`, returning the first foreground direction. -/
def scanNb (fg : Int → Int → Bool) (cur : Int × Int) : Nat → Nat → Option Nat
  | _, 0 => none
  | s, Nat.succ k =>
    let d := s % 8
    let q := addOff cur d
    if fg q.1 q.2 then some d else scanNb fg cur (s + 1) k

/-- Moore-neighbour border following (fuelled), the executable model of one
outer contour traced by `cv2.findContours`: from the current pixel, scan
clockwise from just past the backtrack direction; stop on returning to the
start in the initial configuration. -/
def mooreGo (fg : Int → Int → Bool) (start : Int × Int) (bd0 : Nat) :
    Nat → (Int × Int) → Nat → List (Int × Int) → List (Int × Int)
  | 0, _, _, acc => acc.reverse
  | Nat.succ k, cur, bd, acc =>
    match scanNb fg cur (bd + 1) 8 with
    | none => acc.reverse
    | some d =>
      let next := addOff cur d
      let qprev := addOff cur ((d + 7) % 8)
      let nbd := dirIdx (qprev.1 - next.1, qprev.2 - next.2)
      if next = start ∧ nbd = bd0 then acc.reverse
      else mooreGo fg start bd0 k next nbd (next :: acc)

/-- One traced outer contour starting at a raster-scan start pixel (whose
west neighbour is background, so the initial backtrack direction is west). -/
def mooreTrace (fg : Int → Int → Bool) (start : Int × Int) (fuel : Nat) : List (Int × Int) :=
  mooreGo fg start 4 fuel start 4 [start]

/-- Models `cv2.findContours(mask, cv2.RETR_EXTERNAL, ...)` before vertex
compression: raster-scan for unvisited foreground pixels with background to
their west and trace each component's outer border. -/
def findContoursExt (fg : Int → Int → Bool) (hgt wdt : Nat) : List (List (Int × Int)) :=
  let pixels := ((List.range hgt).map (fun r =>
    (List.range wdt).map (fun c => ((c : Int), (r : Int))))).join
  let fuel := 4 * hgt * wdt + 16
  (pixels.foldl (fun st p =>
    if fg p.1 p.2 && !(fg (p.1 - 1) p.2) && !(st.1.contains p) then
      let ctr := mooreTrace fg p fuel
      (st.1 ++ ctr, st.2 ++ [ctr])
    else st) (([], []) : List (Int × Int) × List (List (Int × Int)))).2

/-- Direction vector between consecutive vertices. -/
def dirBetween (p q : Int × Int) : Int × Int := (q.1 - p.1, q.2 - p.2)

/-- Models `cv2.CHAIN_APPROX_SIMPLE`: drop a vertex when its incoming and
outgoing directions along the (cyclic) contour coincide. -/
def compressSimple (ctr : List (Int × Int)) : List (Int × Int) :=
  if ctr.length < 3 then ctr
  else
    let n := ctr.length
    (List.range n).filterMap (fun i =>
      let prev := ctr.getD ((i + n - 1) % n) (0, 0)
      let curr := ctr.getD (i % n) (0, 0)
      let next := ctr.getD ((i + 1) % n) (0, 0)
      if dirBetween prev curr = dirBetween curr next then none else some curr)

/-- Embeds `get_segmentation`: binary mask from the label-equality predicate,
external contours (model of `cv2.findContours` with `CHAIN_APPROX_SIMPLE`),
then the code's validity filtering of flattened coordinate lists; `None` when
no valid segment remains. -/
def get_segmentation (mask : Nat → Nat → Nat) (hgt wdt lab : Nat) : Option (List (List Int)) :=
  let fg : Int → Int → Bool := fun x y =>
    decide (0 ≤ x) && decide (x < (wdt : Int)) && decide (0 ≤ y) &&
      decide (y < (hgt : Int)) && (mask y.toNat x.toNat == lab)
  let contours := (findContoursExt fg hgt wdt).map compressSimple
  let valid := contours.filterMap (fun ctr =>
    if 3 ≤ ctr.length then
      let coords := (ctr.map (fun p => [p.1, p.2])).join
      if coords.length % 2 == 0 && 6 ≤ coords.length then some coords else none
    else none)
  if valid = [] then none else some valid

/-- Encoder failure modes. -/
inductive EncErr where
  /-- `KeyError` of the `id_to_name[label_id]` lookup — raised inside the
  `try`, caught by the `except`, and only printed. -/
  | keyError
  /-- `IndexError` of `labels[label_id - 1]` while building `categories` —
  not caught, so it aborts the call. -/
  | indexError
deriving DecidableEq

/-- Embeds the encoder's `labels` loop with its `try/except`: walk the sorted
label values, skip background, append the looked-up name; a failed lookup
raises `KeyError`, which the `except` swallows after printing, leaving the
names accumulated so far. -/
def buildLabels (lookup : Nat → Option String) : List Nat → List String → List String
  | [], acc => acc
  | v :: vs, acc =>
    if v = 0 then buildLabels lookup vs acc
    else
      match lookup v with
      | some nm => buildLabels lookup vs (acc ++ [nm])
      | none => acc

/-- One entry of the `categories` comprehension: `labels[label_id - 1]`
with a failed index raising `IndexError`. -/
def catF (labels : List String) (i : Nat) : Except EncErr (Nat × String) :=
  match labels.get? (i - 1) with
  | some nm => .ok (i, nm)
  | none => .error .indexError

/-- Embeds the `categories` list comprehension over the non-background sorted
label values. -/
def catsM (vals : List Nat) (labels : List String) : Except EncErr (List (Nat × String)) :=
  (vals.filter (fun v => !(v == 0))).mapM (catF labels)

/-- Zero-padded decimal rendering of width at least 4 (Python `f"{z:04d}"`,
non-negative case). -/
def pad4 (n : Nat) : String :=
  let s := toString n
  if s.length < 4 then String.mk (List.replicate (4 - s.length) '0') ++ s else s

/-- One slice of the encoder's main loop: emit the image record for slice `z`
and one annotation (with the running annotation id) per present
non-background label that yields a valid segmentation and bounding box. -/
def encSliceStep (vol : Volume) (label_values : List Nat)
    (st : Nat × List ImageRec × List AnnRec) (z : Nat) :
    Nat × List ImageRec × List AnnRec :=
  let imgRec : ImageRec :=
    { id := z, file_name := "slice_" ++ pad4 z ++ ".png",
      height := vol.H, width := vol.W }
  let mask := fun r c => vol.val r c z
  let inner := (uniqueSliceVals vol z).foldl (fun st2 v =>
    if v == 0 then st2
    else if !(label_values.contains v) then st2
    else
      match get_segmentation mask vol.H vol.W v,
          get_bounding_box mask vol.H vol.W v with
      | some seg, some bbox =>
        let ann : AnnRec :=
          { id := st2.1, image_id := z, category_id := v,
            segmentation := seg, bbox := bbox,
            area := labArea mask vol.H vol.W v, iscrowd := 0 }
        (st2.1 + 1, st2.2 ++ [ann])
      | _, _ => st2) (st.1, [])
  (inner.1, st.2.1 ++ [imgRec], st.2.2 ++ inner.2)

/-- Annotation-id counter, image records and annotation records after the
encoder's loop over all slices. -/
def encFold (vol : Volume) (label_values : List Nat) : Nat × List ImageRec × List AnnRec :=
  (List.range vol.D).foldl (encSliceStep vol label_values) (0, [], [])

/-- Embeds `generate_coco_annotations_from_nifti`: collect the sorted label
values, build the name list under the swallowed-`KeyError` loop, build
`categories` (where a label missing from the table surfaces as an uncaught
`IndexError`), then per slice emit one image record and the annotations of
the present labels, with globally incrementing annotation ids. -/
def generate_coco_annotations_from_nifti (vol : Volume) (nifti_path : String) :
    Except EncErr CocoDoc :=
  match catsM (volLabelValues vol)
      (buildLabels (idToName (cfgLabels nifti_path)) (volLabelValues vol) []) with
  | .error e => .error e
  | .ok cats =>
    let res := encFold vol (volLabelValues vol)
    .ok { categories := cats, images := res.2.1, annotations := res.2.2 }

/-- Document produced by a successful encode (dummy on failure). -/
def encOf (vol : Volume) (p : String) : CocoDoc :=
  match generate_coco_annotations_from_nifti vol p with
  | .ok d => d
  | .error _ => { categories := [], images := [], annotations := [] }

theorem mem_insUnique {x y : Nat} : ∀ {l : List Nat}, y ∈ insUnique x l ↔ y = x ∨ y ∈ l := by
  intro l
  induction l with
  | nil => simp [insUnique]
  | cons z zs ih =>
    by_cases h1 : x < z
    · simp [insUnique, h1]
    · by_cases h2 : x = z
      · rw [insUnique, if_neg h1, if_pos h2]
        constructor
        · intro h; exact Or.inr h
        · intro h
          rcases h with h | h
          · rw [h, h2]; exact List.mem_cons_self z zs
          · exact h
      · simp only [insUnique, if_neg h1, if_neg h2, List.mem_cons, ih]
        tauto

theorem insUnique_pairwise {x : Nat} : ∀ {l : List Nat},
    List.Pairwise (· < ·) l → List.Pairwise (· < ·) (insUnique x l) := by
  intro l
  induction l with
  | nil => intro _; simp [insUnique]
  | cons z zs ih =>
    intro hpw
    obtain ⟨hz, hzs⟩ := List.pairwise_cons.mp hpw
    by_cases h1 : x < z
    · rw [insUnique, if_pos h1]
      exact List.pairwise_cons.mpr
        ⟨fun b hb => by
          rcases List.mem_cons.mp hb with h | h
          · subst h; exact h1
          · exact lt_trans h1 (hz b h), hpw⟩
    · by_cases h2 : x = z
      · rw [insUnique, if_neg h1, if_pos h2]; exact hpw
      · rw [insUnique, if_neg h1, if_neg h2]
        have hzx : z < x := by omega
        exact List.pairwise_cons.mpr
          ⟨fun b hb => by
            rcases mem_insUnique.mp hb with h | h
            · subst h; exact hzx
            · exact hz b h, ih hzs⟩

theorem sortedUnique_pairwise (l : List Nat) : List.Pairwise (· < ·) (sortedUnique l) := by
  induction l with
  | nil => exact List.Pairwise.nil
  | cons x xs ih => exact insUnique_pairwise ih

theorem buildLabels_length_le (lookup : Nat → Option String) :
    ∀ (vals : List Nat) (acc : List String) (v : Nat),
      v ∈ vals → 0 < v → lookup v = none → List.Pairwise (· < ·) vals →
      (buildLabels lookup vals acc).length ≤
        acc.length + (vals.filter (fun x => decide (0 < x) && decide (x < v))).length := by
  intro vals
  induction vals with
  | nil => intro acc v hv; cases hv
  | cons x xs ih =>
    intro acc v hv hv0 hlk hpw
    obtain ⟨hx, hxs⟩ := List.pairwise_cons.mp hpw
    by_cases hx0 : x = 0
    · subst hx0
      have hv' : v ∈ xs := by
        rcases List.mem_cons.mp hv with h | h
        · omega
        · exact h
      have hstep : ((0 : Nat) :: xs).filter (fun q => decide (0 < q) && decide (q < v)) =
          xs.filter (fun q => decide (0 < q) && decide (q < v)) := by
        simp [List.filter_cons]
      rw [buildLabels, if_pos rfl, hstep]
      exact ih acc v hv' hv0 hlk hxs
    · rw [buildLabels, if_neg hx0]
      cases hlx : lookup x with
      | none => exact Nat.le_add_right acc.length _
      | some nm =>
        have hvx : v ≠ x := by
          intro h; subst h; rw [hlx] at hlk; exact Option.noConfusion hlk
        have hv' : v ∈ xs := by
          rcases List.mem_cons.mp hv with h | h
          · exact absurd h hvx
          · exact h
        have hxv : x < v := hx v hv'
        have hstep : (x :: xs).filter (fun q => decide (0 < q) && decide (q < v)) =
            x :: xs.filter (fun q => decide (0 < q) && decide (q < v)) := by
          simp [List.filter_cons, Nat.pos_of_ne_zero hx0, hxv]
        rw [hstep]
        have hih := ih (acc ++ [nm]) v hv' hv0 hlk hxs
        simp only [List.length_append, List.length_cons, List.length_nil] at hih ⊢
        omega

theorem filter_lt_length_le {l : List Nat} (hpw : List.Pairwise (· < ·) l) (v : Nat) :
    (l.filter (fun x => decide (0 < x) && decide (x < v))).length ≤ v - 1 := by
  have hnd : (l.filter (fun x => decide (0 < x) && decide (x < v))).Nodup :=
    (List.Pairwise.imp (fun h => Nat.ne_of_lt h) hpw).filter _
  have hsub : (l.filter (fun x => decide (0 < x) && decide (x < v))).toFinset ⊆
      Finset.Ioo 0 v := by
    intro x hx
    rw [List.mem_toFinset] at hx
    have hpred := List.of_mem_filter hx
    simp only [Bool.and_eq_true, decide_eq_true_eq] at hpred
    exact Finset.mem_Ioo.mpr hpred
  calc (l.filter (fun x => decide (0 < x) && decide (x < v))).length
      = (l.filter (fun x => decide (0 < x) && decide (x < v))).toFinset.card :=
        (List.toFinset_card_of_nodup hnd).symm
    _ ≤ (Finset.Ioo 0 v).card := Finset.card_le_card hsub
    _ = v - 1 := by rw [Nat.card_Ioo]; omega

theorem mapM_catF_error (labels : List String) :
    ∀ (l : List Nat), (∃ v ∈ l, labels.get? (v - 1) = none) →
      l.mapM (catF labels) = .error EncErr.indexError := by
  intro l
  induction l with
  | nil => intro h; simp at h
  | cons x xs ih =>
    intro hex
    rw [List.mapM_cons]
    cases hcx : catF labels x with
    | error e =>
      have he : e = EncErr.indexError := by
        rw [catF] at hcx
        cases hg : labels.get? (x - 1) with
        | none =>
          rw [hg] at hcx
          exact ((Except.error.injEq _ _).mp hcx).symm
        | some nm => rw [hg] at hcx; exact Except.noConfusion hcx
      subst he
      rfl
    | ok y =>
      obtain ⟨v, hvm, hvnone⟩ := hex
      have hv' : v ∈ xs := by
        rcases List.mem_cons.mp hvm with h | h
        · subst h
          rw [catF] at hcx
          rw [hvnone] at hcx
          exact Except.noConfusion hcx
        · exact h
      have hxs := ih ⟨v, hv', hvnone⟩
      have hred : (do
          let ys ← xs.mapM (catF labels)
          pure (y :: ys) : Except EncErr (List (Nat × String))) = .error EncErr.indexError := by
        rw [hxs]
        rfl
      exact hred

/-- Volume refuting claim C3 as stated: a single voxel of label 5, absent
from the brain label table. -/
def volC3 : Volume := { H := 1, W := 1, D := 1, val := fun _ _ _ => 5 }

/-- C3 counterexample: on a volume with the unknown label 5, the encoder does
fail — but with the `IndexError` of `labels[label_id - 1]`, not with the
name-lookup error: the `KeyError` of `id_to_name[label_id]` is caught by the
surrounding `except` and only printed. -/
theorem C3_counterexample :
    generate_coco_annotations_from_nifti volC3 "brats_y.nii.gz" = .error EncErr.indexError ∧
    EncErr.indexError ≠ EncErr.keyError := ⟨rfl, by decide⟩

/-- C3 (amended): a non-zero label absent from the selected dataset's name
table always makes the encoder fail — it never silently drops the label and
returns a document — but the failure is the uncaught `IndexError` raised
while building the category list; the unresolvable name lookup itself is
caught and merely logged. -/
theorem C3_missing_label_fails_with_index_error
    (vol : Volume) (p : String)
    (hmiss : ∃ v ∈ volLabelValues vol, v ≠ 0 ∧ idToName (cfgLabels p) v = none) :
    generate_coco_annotations_from_nifti vol p = .error EncErr.indexError := by
  obtain ⟨v, hvm, hv0, hvnone⟩ := hmiss
  have hpw : List.Pairwise (· < ·) (volLabelValues vol) := sortedUnique_pairwise _
  have hlen : (buildLabels (idToName (cfgLabels p)) (volLabelValues vol) []).length ≤ v - 1 := by
    have h1 := buildLabels_length_le (idToName (cfgLabels p)) (volLabelValues vol) [] v
      hvm (Nat.pos_of_ne_zero hv0) hvnone hpw
    have h2 := filter_lt_length_le hpw v
    simpa using le_trans h1 (by simpa using h2)
  have hget : (buildLabels (idToName (cfgLabels p)) (volLabelValues vol) []).get? (v - 1) =
      none := List.get?_len_le hlen
  have hcats : catsM (volLabelValues vol)
      (buildLabels (idToName (cfgLabels p)) (volLabelValues vol) []) =
        .error EncErr.indexError := by
    apply mapM_catF_error
    refine ⟨v, List.mem_filter.mpr ⟨hvm, ?_⟩, hget⟩
    simp [hv0]
  rw [generate_coco_annotations_from_nifti, hcats]

/-- Volume exercising the amended C3: labels 1 (known) and 5 (unknown) in a
brain-path volume. -/
def volC3w : Volume :=
  { H := 2, W := 1, D := 1, val := fun r _ _ => if r == 0 then 1 else 5 }

theorem C3_witness :
    generate_coco_annotations_from_nifti volC3w "brats_w.nii.gz" = .error EncErr.indexError :=
  C3_missing_label_fails_with_index_error volC3w "brats_w.nii.gz" (by decide)

/-- Training entry of `dataset.json`. -/
structure TrEntry where
  image : String
  label : String
deriving DecidableEq

/-- Contents of `dataset.json` as the insertion code reads it: a missing
`training` key behaves as the empty list the code creates, `file_ending`
defaults to ".nii.gz" via `dataset.get`. -/
structure Manifest where
  file_ending : Option String
  training : List TrEntry
  numTraining : Nat
deriving DecidableEq

/-- Filesystem state touched by the insertion: existence of the two target
folders, their file lists, the manifest, and the raw source folder. -/
structure InsertFS where
  imagesTrExists : Bool
  labelsTrExists : Bool
  imagesTr : List String
  labelsTr : List String
  manifest : Option Manifest
  rawExists : Bool
  rawFiles : List String
deriving DecidableEq

/-- Failure modes of the insertion (`FileNotFoundError` / `ValueError`). -/
inductive InsErr where
  | notFound (msg : String)
  | valueError (msg : String)
deriving DecidableEq

/-- Leading decimal-digit run. -/
def digitsAt (cs : List Char) : List Char := cs.takeWhile isDigitCh

/-- Embeds `re.search(r'la_(\d+)', s)`: leftmost "la_" followed by at least
one digit, capturing the maximal digit run. -/
def searchLaNum : List Char → Option (List Char)
  | [] => none
  | c :: cs =>
    if listStartsWith "la_".toList (c :: cs) then
      let ds := digitsAt ((c :: cs).drop 3)
      if ds.isEmpty then searchLaNum cs else some ds
    else searchLaNum cs

/-- Embeds `re.search(r'BRATS[_-]?(\d+)', s)`: leftmost "BRATS", optionally
one "_" or "-", then the maximal digit run. -/
def searchBratsNum : List Char → Option (List Char)
  | [] => none
  | c :: cs =>
    if listStartsWith "BRATS".toList (c :: cs) then
      let rest := (c :: cs).drop 5
      let withSep : Option (List Char) :=
        match rest with
        | d :: ds =>
          if (d == '_' || d == '-') && !(digitsAt ds).isEmpty then some (digitsAt ds) else none
        | [] => none
      match withSep with
      | some ds => some ds
      | none =>
        if (digitsAt rest).isEmpty then searchBratsNum cs else some (digitsAt rest)
    else searchBratsNum cs

/-- Embeds `re.search(r'(\d+)', s)`: leftmost maximal digit run. -/
def searchNum : List Char → Option (List Char)
  | [] => none
  | c :: cs => if isDigitCh c then some (digitsAt (c :: cs)) else searchNum cs

/-- Python `str.zfill(3)` on a digit string. -/
def zfill3 (cs : List Char) : List Char :=
  if cs.length < 3 then List.replicate (3 - cs.length) '0' ++ cs else cs

/-- Fuelled `fnmatch`-style matcher for the glob patterns the code builds
(literal characters and `*` only). -/
def globGo : Nat → List Char → List Char → Bool
  | 0, p, s => p.isEmpty && s.isEmpty
  | Nat.succ _, [], [] => true
  | Nat.succ _, [], _ :: _ => false
  | Nat.succ k, '*' :: ps, s =>
    globGo k ps s ||
      (match s with
       | [] => false
       | _ :: s2 => globGo k ('*' :: ps) s2)
  | Nat.succ _, _ :: _, [] => false
  | Nat.succ k, p :: ps, c :: cs => p == c && globGo k ps cs

/-- Embeds `glob.glob` pattern matching on one directory entry. -/
def globMatch (pat s : String) : Bool :=
  globGo (pat.length + s.length + 1) pat.toList s.toList

/-- Character class `[a-f0-9-]` of the UUID pattern. -/
def isUuidCh (c : Char) : Bool :=
  isDigitCh c || (decide ('a' ≤ c) && decide (c ≤ 'f')) || c == '-'

/-- Embeds `re.compile(r'brats_([a-f0-9-]+)_0000' + ending).match(f)`:
anchored at the start, the captured run is the maximal class run (the class
cannot cross the following underscore). -/
def uuidMatch (ending : String) (f : String) : Option String :=
  let cs := f.toList
  if listStartsWith "brats_".toList cs then
    let rest := cs.drop 6
    let u := rest.takeWhile isUuidCh
    if !u.isEmpty && listStartsWith ("_0000" ++ ending).toList (rest.drop u.length) then
      some (String.mk u)
    else none
  else none

/-- Models `shutil.copy` into a directory listing: overwriting keeps the
name, otherwise the name is appended. -/
def insertFile (l : List String) (f : String) : List String :=
  if l.contains f then l else l ++ [f]

/-- Case-id extraction of the insertion routine: heart ids via `la_(\d+)`,
brain ids via `BRATS[_-]?(\d+)` then `(\d+)`; the boolean marks the heart
dataset (single channel). -/
def extractCaseInfo (nifti_id : String) : Except InsErr (String × String × Bool) :=
  if strContains nifti_id "la_" then
    match searchLaNum nifti_id.toList with
    | none => .error (.valueError ("Invalid heart dataset ID format: " ++ nifti_id))
    | some ds => .ok ("la_" ++ String.mk (zfill3 ds), String.mk ds, true)
  else
    match searchBratsNum nifti_id.toList with
    | some ds => .ok ("BRATS_" ++ String.mk (zfill3 ds), String.mk ds, false)
    | none =>
      match searchNum nifti_id.toList with
      | some ds => .ok ("BRATS_" ++ String.mk (zfill3 ds), String.mk ds, false)
      | none => .error (.valueError ("Could not extract case number from: " ++ nifti_id))

/-- Filename patterns tried per heart channel (channel 0 only). -/
def heartPatterns (case_number base_case_id e : String) : List String :=
  [case_number ++ "_0000" ++ e,
   "la_" ++ case_number ++ "_0000" ++ e,
   "*_" ++ case_number ++ "_0000" ++ e,
   "*_la_" ++ case_number ++ "_0000" ++ e,
   "*_" ++ base_case_id ++ "_0000" ++ e]

/-- Filename patterns tried per brain channel. -/
def brainPatterns (case_number : String) (ch : Nat) (e : String) : List String :=
  ["*_BRATS_" ++ case_number ++ "_" ++ pad4 ch ++ e,
   "BRATS_" ++ case_number ++ "_" ++ pad4 ch ++ e,
   "brats_" ++ case_number ++ "_" ++ pad4 ch ++ e,
   case_number ++ "_" ++ pad4 ch ++ e,
   "*_" ++ case_number ++ "_" ++ pad4 ch ++ e,
   "BRATS" ++ case_number ++ "_" ++ pad4 ch ++ e]

/-- Files of the raw folder matching one pattern: `glob.glob` for wildcard
patterns (empty on a missing folder), `os.path.exists` for literal ones. -/
def patMatches (fs : InsertFS) (pat : String) : List String :=
  if strContains pat "*" then
    if fs.rawExists then fs.rawFiles.filter (fun f => globMatch pat f) else []
  else if fs.rawExists && fs.rawFiles.contains pat then [pat] else []

/-- Per-channel search-and-copy loop: the first matching pattern supplies the
source, the destination name is appended to the images listing; on no match
the code lists the raw folder (raising on a missing folder) and then raises
the channel not-found error. -/
def channelLoop (fs : InsertFS) (is_heart : Bool)
    (case_number base_case_id e raw_path : String) :
    List Nat → List String → Except InsErr (List String)
  | [], imgs => .ok imgs
  | ch :: rest, imgs =>
    let pats := if is_heart then heartPatterns case_number base_case_id e
                else brainPatterns case_number ch e
    match pats.findSome? (fun pat => (patMatches fs pat).head?) with
    | some _ =>
      channelLoop fs is_heart case_number base_case_id e raw_path rest
        (insertFile imgs (base_case_id ++ "_" ++ pad4 ch ++ e))
    | none =>
      if fs.rawExists then
        .error (.notFound ("Could not find raw file for case " ++ base_case_id ++
          " channel " ++ toString ch))
      else .error (.notFound ("No such file or directory: " ++ raw_path))

/-- Raw-image location and copying for all channels: the brain path first
lists the raw folder (raising when missing) and tries the
`brats_<uuid>_<ch>` complete-set search, falling back to (or, for heart,
directly running) the per-channel pattern loop. -/
def insertChannels (fs : InsertFS) (is_heart : Bool)
    (case_number base_case_id e raw_path : String) : Except InsErr (List String) :=
  if is_heart then
    channelLoop fs true case_number base_case_id e raw_path (List.range 1) fs.imagesTr
  else if !fs.rawExists then
    .error (.notFound ("No such file or directory: " ++ raw_path))
  else
    let uuid_matches := fs.rawFiles.filterMap (uuidMatch e)
    if uuid_matches.isEmpty then
      channelLoop fs false case_number base_case_id e raw_path (List.range 4) fs.imagesTr
    else
      match uuid_matches.find? (fun u => (List.range 4).all
          (fun ch => fs.rawFiles.contains ("brats_" ++ u ++ "_" ++ pad4 ch ++ e))) with
      | some _ =>
        .ok ((List.range 4).foldl
          (fun imgs ch => insertFile imgs (base_case_id ++ "_" ++ pad4 ch ++ e)) fs.imagesTr)
      | none =>
        .error (.notFound ("Could not find complete set of channels for case " ++ base_case_id))

/-- Manifest rewrite of a successful insertion: drop every entry whose image
path contains the case id as a substring, append the new image/label pair,
refresh `numTraining`. -/
def updatedManifest (dataset : Manifest) (base_case_id e new_label_filename : String) :
    Manifest :=
  let newEntry : TrEntry :=
    { image := "./imagesTr/" ++ base_case_id ++ "_0000" ++ e,
      label := "./labelsTr/" ++ new_label_filename }
  let training2 :=
    (dataset.training.filter (fun en => !(strContains en.image base_case_id))) ++ [newEntry]
  { dataset with training := training2, numTraining := training2.length }

/-- Embeds `insert_corrected_annotation_with_multichannel` over the
filesystem model: folder and manifest checks, case-id extraction, label
copy, channel location and copy, manifest update.  The returned pair holds
the result (case id, or the raised error) and the filesystem state at exit —
Python exceptions leave already-performed copies in place. -/
def insert_corrected_annotation_with_multichannel
    (fs : InsertFS) (dataset_folder raw_images_src nifti_id : String) :
    (Except InsErr String) × InsertFS :=
  if fs.imagesTrExists then
    if fs.labelsTrExists then
      match fs.manifest with
      | none => (.error (.notFound ("dataset.json not found in " ++ dataset_folder)), fs)
      | some dataset =>
        match extractCaseInfo nifti_id with
        | .error er => (.error er, fs)
        | .ok info =>
          let base_case_id := info.1
          let case_number := info.2.1
          let is_heart := info.2.2
          let e := dataset.file_ending.getD ".nii.gz"
          let new_label_filename := base_case_id ++ e
          let fs1 := { fs with labelsTr := insertFile fs.labelsTr new_label_filename }
          match insertChannels fs1 is_heart case_number base_case_id e raw_images_src with
          | .error er => (.error er, fs1)
          | .ok imgs2 =>
            let dataset2 := updatedManifest dataset base_case_id e new_label_filename
            (.ok base_case_id, { fs1 with imagesTr := imgs2, manifest := some dataset2 })
    else
      (.error (.notFound ("Required folder " ++ (dataset_folder ++ "/labelsTr") ++
        " does not exist.")), fs)
  else
    (.error (.notFound ("Required folder " ++ (dataset_folder ++ "/imagesTr") ++
      " does not exist.")), fs)

theorem listStartsWith_append (p r : List Char) : listStartsWith p (p ++ r) = true := by
  induction p with
  | nil => rfl
  | cons c cs ih => simp [listStartsWith, ih]

theorem listHasSub_of_startsWith : ∀ (p s : List Char),
    listStartsWith p s = true → listHasSub p s = true := by
  intro p s h
  cases s with
  | nil => rw [listHasSub]; exact h
  | cons c cs => rw [listHasSub, h, Bool.true_or]

theorem listHasSub_mid (p : List Char) : ∀ (a c : List Char),
    listHasSub p (a ++ (p ++ c)) = true := by
  intro a
  induction a with
  | nil =>
    intro c
    rw [List.nil_append]
    exact listHasSub_of_startsWith p (p ++ c) (listStartsWith_append p c)
  | cons b bs ih =>
    intro c
    rw [List.cons_append, listHasSub, ih c, Bool.or_true]

theorem strContains_mid (a p c : String) : strContains (a ++ p ++ c) p = true := by
  have h := listHasSub_mid p.toList a.toList c.toList
  have he : (a ++ p ++ c).toList = a.toList ++ (p.toList ++ c.toList) := by
    show (a.toList ++ p.toList) ++ c.toList = a.toList ++ (p.toList ++ c.toList)
    rw [List.append_assoc]
  rw [strContains, he]
  exact h

theorem strContains_suffix (a p : String) : strContains (a ++ p) p = true := by
  have h := listHasSub_mid p.toList a.toList []
  rw [List.append_nil] at h
  exact h

theorem insert_fail_imagesTr {fs : InsertFS} (df rp id : String)
    (h : fs.imagesTrExists = false) :
    insert_corrected_annotation_with_multichannel fs df rp id =
      (.error (.notFound ("Required folder " ++ (df ++ "/imagesTr") ++
        " does not exist.")), fs) := by
  rw [insert_corrected_annotation_with_multichannel, h]
  rfl

theorem insert_fail_labelsTr {fs : InsertFS} (df rp id : String)
    (h1 : fs.imagesTrExists = true) (h2 : fs.labelsTrExists = false) :
    insert_corrected_annotation_with_multichannel fs df rp id =
      (.error (.notFound ("Required folder " ++ (df ++ "/labelsTr") ++
        " does not exist.")), fs) := by
  rw [insert_corrected_annotation_with_multichannel, h1, h2]
  rfl

theorem insert_fail_manifest {fs : InsertFS} (df rp id : String)
    (h1 : fs.imagesTrExists = true) (h2 : fs.labelsTrExists = true)
    (h3 : fs.manifest = none) :
    insert_corrected_annotation_with_multichannel fs df rp id =
      (.error (.notFound ("dataset.json not found in " ++ df)), fs) := by
  rw [insert_corrected_annotation_with_multichannel, h1, h2, h3]
  rfl

/-- Outcome shape of the insertion: either the manifest on disk is exactly
the input one (every failure path), or the call succeeded and the manifest
got the rewrite of `updatedManifest`. -/
theorem insert_shape (fs : InsertFS) (df rp id : String) :
    (insert_corrected_annotation_with_multichannel fs df rp id).2.manifest = fs.manifest ∧
      (∀ b, (insert_corrected_annotation_with_multichannel fs df rp id).1 ≠ .ok b) ∨
    (∃ dataset base e,
      fs.manifest = some dataset ∧
      (insert_corrected_annotation_with_multichannel fs df rp id).1 = .ok base ∧
      e = dataset.file_ending.getD ".nii.gz" ∧
      (insert_corrected_annotation_with_multichannel fs df rp id).2.manifest =
        some (updatedManifest dataset base e (base ++ e))) := by
  cases hI : fs.imagesTrExists with
  | false =>
    rw [insert_fail_imagesTr df rp id hI]
    exact Or.inl ⟨rfl, fun b h => Except.noConfusion h⟩
  | true =>
    cases hL : fs.labelsTrExists with
    | false =>
      rw [insert_fail_labelsTr df rp id hI hL]
      exact Or.inl ⟨rfl, fun b h => Except.noConfusion h⟩
    | true =>
      cases hm : fs.manifest with
      | none =>
        rw [insert_fail_manifest df rp id hI hL hm]
        exact Or.inl ⟨hm, fun b h => Except.noConfusion h⟩
      | some dataset =>
        cases hE : extractCaseInfo id with
        | error er =>
          have heq : insert_corrected_annotation_with_multichannel fs df rp id =
              (.error er, fs) := by
            rw [insert_corrected_annotation_with_multichannel, hI, hL, hm, hE]
            rfl
          rw [heq]
          exact Or.inl ⟨hm, fun b h => Except.noConfusion h⟩
        | ok info =>
          have heq : insert_corrected_annotation_with_multichannel fs df rp id =
              (match insertChannels { imagesTrExists := true, labelsTrExists := true, imagesTr := fs.imagesTr, labelsTr := insertFile fs.labelsTr (info.1 ++ dataset.file_ending.getD ".nii.gz"), manifest := some dataset, rawExists := fs.rawExists, rawFiles := fs.rawFiles } info.2.2 info.2.1 info.1 (dataset.file_ending.getD ".nii.gz") rp with
               | .error er => (.error er, { imagesTrExists := true, labelsTrExists := true, imagesTr := fs.imagesTr, labelsTr := insertFile fs.labelsTr (info.1 ++ dataset.file_ending.getD ".nii.gz"), manifest := some dataset, rawExists := fs.rawExists, rawFiles := fs.rawFiles })
               | .ok imgs2 => (.ok info.1, { imagesTrExists := true, labelsTrExists := true, imagesTr := imgs2, labelsTr := insertFile fs.labelsTr (info.1 ++ dataset.file_ending.getD ".nii.gz"), manifest := some (updatedManifest dataset info.1 (dataset.file_ending.getD ".nii.gz") (info.1 ++ dataset.file_ending.getD ".nii.gz")), rawExists := fs.rawExists, rawFiles := fs.rawFiles })) := by
            rw [insert_corrected_annotation_with_multichannel, hI, hL, hm, hE]
            rfl
          rw [heq]
          cases hC : insertChannels { imagesTrExists := true, labelsTrExists := true, imagesTr := fs.imagesTr, labelsTr := insertFile fs.labelsTr (info.1 ++ dataset.file_ending.getD ".nii.gz"), manifest := some dataset, rawExists := fs.rawExists, rawFiles := fs.rawFiles } info.2.2 info.2.1 info.1 (dataset.file_ending.getD ".nii.gz") rp with
          | error er =>
            exact Or.inl ⟨rfl, fun b h => Except.noConfusion h⟩
          | ok imgs2 =>
            exact Or.inr ⟨dataset, info.1, dataset.file_ending.getD ".nii.gz",
              rfl, rfl, rfl, rfl⟩

theorem updatedManifest_props (dataset : Manifest) (base e nl : String) :
    ({ image := "./imagesTr/" ++ base ++ "_0000" ++ e,
       label := "./labelsTr/" ++ nl } : TrEntry) ∈ (updatedManifest dataset base e nl).training ∧
    (∀ en ∈ (updatedManifest dataset base e nl).training,
      en ≠ ({ image := "./imagesTr/" ++ base ++ "_0000" ++ e,
              label := "./labelsTr/" ++ nl } : TrEntry) →
      strContains en.image base = false) ∧
    (updatedManifest dataset base e nl).numTraining =
      (updatedManifest dataset base e nl).training.length := by
  refine ⟨?_, ?_, rfl⟩
  · rw [updatedManifest]
    exact List.mem_append_right _ (List.mem_cons_self _ _)
  · intro en hen hne
    rw [updatedManifest] at hen
    rcases List.mem_append.mp hen with h | h
    · have hp := List.of_mem_filter h
      simp only [Bool.not_eq_true'] at hp
      exact hp
    · rcases List.mem_cons.mp h with h1 | h1
      · exact absurd h1 hne
      · cases h1

/-- Filesystem refuting claim C4 as stated: folders and manifest present,
but the raw folder holds no channel file for case la_018. -/
def fsC4 : InsertFS :=
  { imagesTrExists := true, labelsTrExists := true, imagesTr := [], labelsTr := [],
    manifest := some { file_ending := some ".nii.gz", training := [], numTraining := 0 },
    rawExists := true, rawFiles := [] }

/-- C4 counterexample: with the raw channel file missing, the insertion does
abort with a not-found error — whose message names the case id and channel,
not the missing path — but only after the corrected label file has already
been copied into the label folder: the insertion is partially applied. -/
theorem C4_counterexample :
    (insert_corrected_annotation_with_multichannel fsC4 "/d" "/raw" "la_018").1 =
      .error (.notFound "Could not find raw file for case la_018 channel 0") ∧
    (insert_corrected_annotation_with_multichannel fsC4 "/d" "/raw" "la_018").2.labelsTr =
      ["la_018.nii.gz"] ∧
    fsC4.labelsTr = [] := ⟨rfl, rfl, rfl⟩

/-- C4 (amended): a missing target folder or missing manifest aborts before
any modification, with a not-found error whose message names the exact
missing path, and the filesystem state is returned unchanged; on any failure
whatsoever (including a missing raw channel file, which strikes only after
the label copy) the manifest is never modified. -/
theorem C4_failure_atomicity :
    (∀ (fs : InsertFS) (df rp id : String),
      fs.imagesTrExists = false ∨ fs.labelsTrExists = false ∨ fs.manifest = none →
      ∃ msg, (insert_corrected_annotation_with_multichannel fs df rp id).1 =
          .error (.notFound msg) ∧
        (insert_corrected_annotation_with_multichannel fs df rp id).2 = fs ∧
        ((fs.imagesTrExists = false ∧ strContains msg (df ++ "/imagesTr") = true) ∨
         (fs.imagesTrExists = true ∧ fs.labelsTrExists = false ∧
           strContains msg (df ++ "/labelsTr") = true) ∨
         (fs.imagesTrExists = true ∧ fs.labelsTrExists = true ∧ fs.manifest = none ∧
           strContains msg df = true))) ∧
    (∀ (fs : InsertFS) (df rp id : String) (er : InsErr),
      (insert_corrected_annotation_with_multichannel fs df rp id).1 = .error er →
      (insert_corrected_annotation_with_multichannel fs df rp id).2.manifest = fs.manifest) := by
  constructor
  · intro fs df rp id hmiss
    cases hI : fs.imagesTrExists with
    | false =>
      refine ⟨"Required folder " ++ (df ++ "/imagesTr") ++ " does not exist.", ?_, ?_, ?_⟩
      · rw [insert_fail_imagesTr df rp id hI]
      · rw [insert_fail_imagesTr df rp id hI]
      · exact Or.inl ⟨rfl, strContains_mid "Required folder " (df ++ "/imagesTr")
          " does not exist."⟩
    | true =>
      cases hL : fs.labelsTrExists with
      | false =>
        refine ⟨"Required folder " ++ (df ++ "/labelsTr") ++ " does not exist.", ?_, ?_, ?_⟩
        · rw [insert_fail_labelsTr df rp id hI hL]
        · rw [insert_fail_labelsTr df rp id hI hL]
        · exact Or.inr (Or.inl ⟨rfl, rfl, strContains_mid "Required folder "
            (df ++ "/labelsTr") " does not exist."⟩)
      | true =>
        cases hm : fs.manifest with
        | some dataset =>
          rw [hI, hL, hm] at hmiss
          rcases hmiss with h | h | h <;> exact absurd h (by simp)
        | none =>
          refine ⟨"dataset.json not found in " ++ df, ?_, ?_, ?_⟩
          · rw [insert_fail_manifest df rp id hI hL hm]
          · rw [insert_fail_manifest df rp id hI hL hm]
          · exact Or.inr (Or.inr ⟨rfl, rfl, rfl, strContains_suffix
              "dataset.json not found in " df⟩)
  · intro fs df rp id er herr
    rcases insert_shape fs df rp id with ⟨hman, _⟩ | ⟨dataset, base, e, _, hok, _, _⟩
    · exact hman
    · rw [herr] at hok
      exact Except.noConfusion hok

/-- Filesystem exercising the amended C4: imagesTr folder missing. -/
def fsC4w : InsertFS :=
  { imagesTrExists := false, labelsTrExists := true, imagesTr := [], labelsTr := [],
    manifest := some { file_ending := some ".nii.gz", training := [], numTraining := 0 },
    rawExists := true, rawFiles := [] }

theorem C4_witness :
    ∃ msg, (insert_corrected_annotation_with_multichannel fsC4w "/d" "/raw" "la_018").1 =
        .error (.notFound msg) ∧
      (insert_corrected_annotation_with_multichannel fsC4w "/d" "/raw" "la_018").2 = fsC4w ∧
      ((fsC4w.imagesTrExists = false ∧ strContains msg ("/d" ++ "/imagesTr") = true) ∨
       (fsC4w.imagesTrExists = true ∧ fsC4w.labelsTrExists = false ∧
         strContains msg ("/d" ++ "/labelsTr") = true) ∨
       (fsC4w.imagesTrExists = true ∧ fsC4w.labelsTrExists = true ∧ fsC4w.manifest = none ∧
         strContains msg "/d" = true)) :=
  C4_failure_atomicity.1 fsC4w "/d" "/raw" "la_018" (Or.inl rfl)

/-- C7: after every successful insertion the manifest holds the new training
entry pairing the case's image and label paths, every other entry's image
path avoids the case id (pre-existing entries for it were removed), and the
total count equals the training list's length. -/
theorem C7_manifest_update
    (fs : InsertFS) (df rp id b : String)
    (hok : (insert_corrected_annotation_with_multichannel fs df rp id).1 = .ok b) :
    ∃ m2 e, (insert_corrected_annotation_with_multichannel fs df rp id).2.manifest = some m2 ∧
      ({ image := "./imagesTr/" ++ b ++ "_0000" ++ e,
         label := "./labelsTr/" ++ (b ++ e) } : TrEntry) ∈ m2.training ∧
      (∀ en ∈ m2.training,
        en ≠ ({ image := "./imagesTr/" ++ b ++ "_0000" ++ e,
                label := "./labelsTr/" ++ (b ++ e) } : TrEntry) →
        strContains en.image b = false) ∧
      m2.numTraining = m2.training.length := by
  rcases insert_shape fs df rp id with ⟨_, hnone⟩ | ⟨dataset, base, e, _, hok2, _, hman⟩
  · exact absurd hok (hnone b)
  · have hb : base = b := by
      rw [hok] at hok2
      exact ((Except.ok.injEq b base).mp hok2).symm
    subst hb
    obtain ⟨h1, h2, h3⟩ := updatedManifest_props dataset base e (base ++ e)
    exact ⟨updatedManifest dataset base e (base ++ e), e, hman, h1, h2, h3⟩

/-- Pre-existing manifest entry for case la_018, replaced by the insertion. -/
def oldEntryC7 : TrEntry :=
  { image := "./imagesTr/la_018_0000.nii.gz", label := "./labelsTr/la_018.nii.gz" }

/-- Manifest with a pre-existing la_018 entry. -/
def manC7w : Manifest :=
  { file_ending := some ".nii.gz", training := [oldEntryC7], numTraining := 1 }

/-- Filesystem exercising C7: heart case la_018 with its channel file present. -/
def fsC7w : InsertFS :=
  { imagesTrExists := true, labelsTrExists := true, imagesTr := [], labelsTr := [],
    manifest := some manC7w, rawExists := true, rawFiles := ["la_018_0000.nii.gz"] }

theorem C7_witness :
    ∃ m2 e, (insert_corrected_annotation_with_multichannel fsC7w "/d" "/raw" "la_018").2.manifest =
        some m2 ∧
      ({ image := "./imagesTr/" ++ "la_018" ++ "_0000" ++ e,
         label := "./labelsTr/" ++ ("la_018" ++ e) } : TrEntry) ∈ m2.training ∧
      (∀ en ∈ m2.training,
        en ≠ ({ image := "./imagesTr/" ++ "la_018" ++ "_0000" ++ e,
                label := "./labelsTr/" ++ ("la_018" ++ e) } : TrEntry) →
        strContains en.image "la_018" = false) ∧
      m2.numTraining = m2.training.length :=
  C7_manifest_update fsC7w "/d" "/raw" "la_018" "la_018" rfl

/-- Epsilon of the normalization guard (`1e-6`, exact in ℚ). -/
def epsQ : ℚ := 1 / 1000000

/-- Minimum of a nonempty list of rationals (`.min()`; 0 on the unused empty
case). -/
def minQ : List ℚ → ℚ
  | [] => 0
  | x :: xs => xs.foldl min x

/-- Maximum of a nonempty list of rationals (`.max()`; 0 on the unused empty
case). -/
def maxQ : List ℚ → ℚ
  | [] => 0
  | x :: xs => xs.foldl max x

/-- Pixel values of a float slice in row-major order. -/
def sliceListQ (data : Nat → Nat → Nat → ℚ) (H W i : Nat) : List ℚ :=
  ((List.range H).map (fun r => (List.range W).map (fun c => data r c i))).join

/-- Embeds the normalization step of `nifti_to_png_slices`: min-max scale the
slice when its dynamic range exceeds `1e-6`, otherwise leave the values
untouched ("already scaled"). -/
def normalizedSlice (data : Nat → Nat → Nat → ℚ) (H W i r c : Nat) : ℚ :=
  let lo := minQ (sliceListQ data H W i)
  let hi := maxQ (sliceListQ data H W i)
  if hi - lo > epsQ then (data r c i - lo) / (hi - lo) else data r c i

/-- Models `.astype(np.uint8)` on the non-negative in-range values the claims
concern: truncate and wrap into a byte. -/
def toU8 (q : ℚ) : Nat := (Int.toNat ⌊q⌋) % 256

/-- One written PNG slice: its filename, RGB bytes, and the optional
transparency channel. -/
structure PngOut where
  fname : String
  rgb : Nat → Nat → Nat × Nat × Nat
  alpha : Option (Nat → Nat → Nat)

/-- Placeholder slice for out-of-range list reads in statements. -/
def defaultPng : PngOut := { fname := "", rgb := fun _ _ => (0, 0, 0), alpha := none }

/-- Embeds `nifti_to_png_slices` on a loaded float volume: per slice along
the depth axis, min-max normalize (with the epsilon skip), apply the colour
map (a parameter standing for `plt.get_cmap('viridis')`) or replicate the
grayscale byte across three channels, attach the transparency channel
computed from the pre-normalization values when requested, and name the file
with the zero-padded 4-digit slice index. -/
def nifti_to_png_slices (data : Nat → Nat → Nat → ℚ) (H W D : Nat)
    (use_viridis transparent_bg : Bool) (cmap : ℚ → ℚ × ℚ × ℚ) : List PngOut :=
  (List.range D).map (fun i =>
    let norm := fun r c => normalizedSlice data H W i r c
    let rgb : Nat → Nat → Nat × Nat × Nat :=
      if use_viridis then
        fun r c =>
          let q := cmap (norm r c)
          (toU8 (q.1 * 255), toU8 (q.2.1 * 255), toU8 (q.2.2 * 255))
      else
        fun r c =>
          let g := toU8 (norm r c * 255)
          (g, g, g)
    { fname := "slice_" ++ pad4 i ++ ".png",
      rgb := rgb,
      alpha := if transparent_bg then
          some (fun r c => if data r c i ≠ 0 then 255 else 0)
        else none })

theorem foldl_min_init_le {α : Type} [LinearOrder α] (l : List α) (a : α) :
    l.foldl min a ≤ a := by
  induction l generalizing a with
  | nil => exact le_refl a
  | cons y ys ih =>
    calc ys.foldl min (min a y) ≤ min a y := ih (min a y)
    _ ≤ a := min_le_left a y

theorem foldl_min_le_mem {α : Type} [LinearOrder α] {l : List α} {a x : α} (hx : x ∈ l) :
    l.foldl min a ≤ x := by
  induction l generalizing a with
  | nil => cases hx
  | cons y ys ih =>
    rcases List.mem_cons.mp hx with h | h
    · subst h
      calc ys.foldl min (min a x) ≤ min a x := foldl_min_init_le ys (min a x)
      _ ≤ x := min_le_right a x
    · exact ih h

theorem le_foldl_max_init_q {α : Type} [LinearOrder α] (l : List α) (a : α) :
    a ≤ l.foldl max a := by
  induction l generalizing a with
  | nil => exact le_refl a
  | cons y ys ih =>
    calc a ≤ max a y := le_max_left a y
    _ ≤ ys.foldl max (max a y) := ih (max a y)

theorem mem_le_foldl_max_q {α : Type} [LinearOrder α] {l : List α} {a x : α} (hx : x ∈ l) :
    x ≤ l.foldl max a := by
  induction l generalizing a with
  | nil => cases hx
  | cons y ys ih =>
    rcases List.mem_cons.mp hx with h | h
    · subst h
      calc x ≤ max a x := le_max_right a x
      _ ≤ ys.foldl max (max a x) := le_foldl_max_init_q ys (max a x)
    · exact ih h

theorem minQ_le_mem {l : List ℚ} {x : ℚ} (hx : x ∈ l) : minQ l ≤ x := by
  cases l with
  | nil => cases hx
  | cons y ys =>
    rcases List.mem_cons.mp hx with h | h
    · subst h; exact foldl_min_init_le ys x
    · exact foldl_min_le_mem h

theorem mem_le_maxQ {l : List ℚ} {x : ℚ} (hx : x ∈ l) : x ≤ maxQ l := by
  cases l with
  | nil => cases hx
  | cons y ys =>
    rcases List.mem_cons.mp hx with h | h
    · subst h; exact le_foldl_max_init_q ys x
    · exact mem_le_foldl_max_q h

theorem mem_sliceListQ {data : Nat → Nat → Nat → ℚ} {H W i r c : Nat}
    (hr : r < H) (hc : c < W) : data r c i ∈ sliceListQ data H W i := by
  rw [sliceListQ]
  apply List.mem_join.mpr
  refine ⟨(List.range W).map (fun c => data r c i), ?_, ?_⟩
  · exact List.mem_map.mpr ⟨r, List.mem_range.mpr hr, rfl⟩
  · exact List.mem_map.mpr ⟨c, List.mem_range.mpr hc, rfl⟩

theorem getD_map_range {α : Type} (f : Nat → α) (d : α) {i D : Nat} (h : i < D) :
    ((List.range D).map f).getD i d = f i := by
  rw [List.getD_eq_getElem?_getD, List.getElem?_map, List.getElem?_range h]
  rfl

/-- C8: `nifti_to_png_slices` writes one slice per depth index, named with
the zero-padded 4-digit index; when the slice's dynamic range exceeds the
epsilon the normalized values scaled by 255 lie in [0, 255] and feed the
grayscale bytes, otherwise the values pass through unscaled; and the
transparency channel, when enabled, is fully transparent exactly at pixels
whose pre-normalization value is zero. -/
theorem C8_png_slice_conversion
    (data : Nat → Nat → Nat → ℚ) (H W D : Nat) (uv tb : Bool) (cmap : ℚ → ℚ × ℚ × ℚ) :
    (nifti_to_png_slices data H W D uv tb cmap).length = D ∧
    ∀ i < D,
      ((nifti_to_png_slices data H W D uv tb cmap).getD i defaultPng).fname =
        "slice_" ++ pad4 i ++ ".png" ∧
      (maxQ (sliceListQ data H W i) - minQ (sliceListQ data H W i) > epsQ →
        ∀ r < H, ∀ c < W,
          0 ≤ normalizedSlice data H W i r c * 255 ∧
          normalizedSlice data H W i r c * 255 ≤ 255) ∧
      (¬ (maxQ (sliceListQ data H W i) - minQ (sliceListQ data H W i) > epsQ) →
        ∀ r c, normalizedSlice data H W i r c = data r c i) ∧
      (tb = true →
        ∃ al, ((nifti_to_png_slices data H W D uv tb cmap).getD i defaultPng).alpha =
            some al ∧
          ∀ r c, al r c = if data r c i = 0 then 0 else 255) ∧
      (uv = false → ∀ r c,
        ((nifti_to_png_slices data H W D uv tb cmap).getD i defaultPng).rgb r c =
          (toU8 (normalizedSlice data H W i r c * 255),
           toU8 (normalizedSlice data H W i r c * 255),
           toU8 (normalizedSlice data H W i r c * 255))) := by
  constructor
  · rw [nifti_to_png_slices, List.length_map, List.length_range]
  · intro i hi
    have hout : (nifti_to_png_slices data H W D uv tb cmap).getD i defaultPng =
        { fname := "slice_" ++ pad4 i ++ ".png",
          rgb := if uv then
              fun r c =>
                let q := cmap (normalizedSlice data H W i r c)
                (toU8 (q.1 * 255), toU8 (q.2.1 * 255), toU8 (q.2.2 * 255))
            else
              fun r c =>
                let g := toU8 (normalizedSlice data H W i r c * 255)
                (g, g, g),
          alpha := if tb then
              some (fun r c => if data r c i ≠ 0 then 255 else 0)
            else none } := by
      rw [nifti_to_png_slices, getD_map_range _ _ hi]
    refine ⟨by rw [hout], ?_, ?_, ?_, ?_⟩
    · intro hrange r hr c hc
      have hlo := minQ_le_mem (@mem_sliceListQ data H W i r c hr hc)
      have hhi := mem_le_maxQ (@mem_sliceListQ data H W i r c hr hc)
      have hpos : (0 : ℚ) < maxQ (sliceListQ data H W i) - minQ (sliceListQ data H W i) := by
        have : (0 : ℚ) < epsQ := by norm_num [epsQ]
        linarith
      have hnorm : normalizedSlice data H W i r c =
          (data r c i - minQ (sliceListQ data H W i)) /
            (maxQ (sliceListQ data H W i) - minQ (sliceListQ data H W i)) := by
        rw [normalizedSlice, if_pos hrange]
      constructor
      · rw [hnorm]
        have h0 : (0 : ℚ) ≤ (data r c i - minQ (sliceListQ data H W i)) /
            (maxQ (sliceListQ data H W i) - minQ (sliceListQ data H W i)) :=
          div_nonneg (by linarith) (le_of_lt hpos)
        positivity
      · rw [hnorm]
        have h1 : (data r c i - minQ (sliceListQ data H W i)) /
            (maxQ (sliceListQ data H W i) - minQ (sliceListQ data H W i)) ≤ 1 :=
          (div_le_one hpos).mpr (by linarith)
        nlinarith
    · intro hrange r c
      rw [normalizedSlice, if_neg hrange]
    · intro htb
      rw [hout]
      refine ⟨fun r c => if data r c i ≠ 0 then 255 else 0, by rw [htb]; rfl, ?_⟩
      intro r c
      by_cases h0 : data r c i = 0
      · simp [h0]
      · simp [h0]
    · intro huv r c
      rw [hout, huv]
      rfl

/-- Float volume exercising C8: one 1x2 slice with values 0 and 10. -/
def dataC8w : Nat → Nat → Nat → ℚ := fun _ c _ => if c = 0 then 0 else 10

theorem C8_witness :
    (nifti_to_png_slices dataC8w 1 2 1 false true (fun q => (q, q, q))).length = 1 ∧
    ((nifti_to_png_slices dataC8w 1 2 1 false true (fun q => (q, q, q))).getD 0
        defaultPng).fname = "slice_" ++ pad4 0 ++ ".png" := by
  have H := C8_png_slice_conversion dataC8w 1 2 1 false true (fun q => (q, q, q))
  exact ⟨H.1, (H.2 0 (by decide)).1⟩

/-- Outcome recorded for one task of the `send_to_dataset` batch. -/
inductive ItemResult where
  | success (task_id : Nat) (new_case_id : String)
  | failure (task_id : Nat) (msg : String)
deriving DecidableEq

/-- Environment of one `send_to_dataset` task: each flag records whether the
corresponding step of the loop body (all wrapped in the per-task
`try/except`) succeeds. -/
structure SendItem where
  id : Nat
  idParses : Bool
  retrieveOk : Bool
  downloadOk : Bool
  niftiIdFound : Bool
  convertOk : Bool
  insertOk : Bool
  caseId : String
deriving DecidableEq

/-- Request-level environment of `send_to_dataset`: body present,
credentials present, CVAT authentication outcome, shared raw-folder
existence (checked inside each iteration), and the task list. -/
structure SendEnv where
  hasData : Bool
  credsOk : Bool
  authOk : Bool
  rawFolderExists : Bool
  items : List SendItem
deriving DecidableEq

/-- Response of a batch endpoint: an aborting HTTP error, or a completed
response carrying the per-item payload. -/
inductive BatchResp (α : Type) where
  | abort (code : Nat)
  | done (results : List α)
deriving DecidableEq

/-- Loop body of `send_to_dataset` for one task id: the first failing step
raises, the `except` records the error in the results list, the loop
continues.  The shared raw-folder check happens inside the body, after the
NIfTI conversion. -/
def processSendItem (rawOk : Bool) (it : SendItem) : ItemResult :=
  if !it.idParses then .failure it.id "invalid task id"
  else if !it.retrieveOk then .failure it.id "Task not found in CVAT."
  else if !it.downloadOk then .failure it.id "Annotation download did not create a file"
  else if !it.niftiIdFound then .failure it.id "Nifti ID not found"
  else if !it.convertOk then .failure it.id "NIfTI conversion failed to create a file"
  else if !rawOk then .failure it.id "Raw images folder not found"
  else if !it.insertOk then .failure it.id "insertion failed"
  else .success it.id it.caseId

/-- Embeds the control flow of the `send_to_dataset` route: missing body,
empty task list, missing credentials and failed authentication abort up
front; afterwards every task yields exactly one entry of the results list. -/
def send_to_dataset (env : SendEnv) : BatchResp ItemResult :=
  if !env.hasData then .abort 400
  else if env.items.isEmpty then .abort 400
  else if !env.credsOk then .abort 400
  else if !env.authOk then .abort 401
  else .done (env.items.map (processSendItem env.rawFolderExists))

/-- Environment of one `upload_tasks` item: input existence, the CVAT
status codes of task creation / data upload / annotation upload, and whether
annotation generation succeeds. -/
structure UploadItem where
  nid : String
  pngDirExists : Bool
  resultNiftiExists : Bool
  createStatus : Nat
  taskId : Nat
  dataStatus : Nat
  annotGenOk : Bool
  annUploadStatus : Nat
deriving DecidableEq

/-- Request-level environment of `upload_tasks`. -/
structure UploadEnv where
  credsOk : Bool
  authOk : Bool
  items : List UploadItem
deriving DecidableEq

/-- Steps of one `upload_tasks` iteration that `return` out of the route on
failure (missing PNG directory, missing result NIfTI, task-creation status
other than 201, data-upload status other than 202). -/
def uploadPreOk (it : UploadItem) : Bool :=
  it.pngDirExists && it.resultNiftiExists &&
    (it.createStatus == 201) && (it.dataStatus == 202)

/-- Annotation stage of one iteration: generation/saving plus an upload
status of 200 or 202; a failure here raises into the per-item `except`,
which just `continue`s. -/
def uploadAnnOk (it : UploadItem) : Bool :=
  it.annotGenOk && (it.annUploadStatus == 200 || it.annUploadStatus == 202)

/-- Loop of `upload_tasks`: input or CVAT-call failures `return` an error
response for the whole batch (discarding earlier successes); annotation
failures are caught and skipped without any entry; successes append. -/
def uploadGo : List UploadItem → List (Nat × String) → BatchResp (Nat × String)
  | [], acc => .done acc.reverse
  | it :: rest, acc =>
    if !it.pngDirExists then .abort 404
    else if !it.resultNiftiExists then .abort 404
    else if !(it.createStatus == 201) then .abort 400
    else if !(it.dataStatus == 202) then .abort 400
    else if !it.annotGenOk then uploadGo rest acc
    else if !(it.annUploadStatus == 200 || it.annUploadStatus == 202) then uploadGo rest acc
    else uploadGo rest ((it.taskId, it.nid) :: acc)

/-- Embeds the control flow of the `upload_tasks` route. -/
def upload_tasks (env : UploadEnv) : BatchResp (Nat × String) :=
  if env.items.isEmpty then .abort 400
  else if !env.credsOk then .abort 400
  else if !env.authOk then .abort 401
  else uploadGo env.items []

theorem uploadGo_abort {it : UploadItem} (hpre : uploadPreOk it = false) :
    ∀ (pre suf : List UploadItem) (acc : List (Nat × String)),
      (∀ j ∈ pre, uploadPreOk j = true) →
      ∃ code, uploadGo (pre ++ it :: suf) acc = .abort code := by
  intro pre
  induction pre with
  | nil =>
    intro suf acc _
    rw [List.nil_append]
    cases hp : it.pngDirExists with
    | false => exact ⟨404, by simp [uploadGo, hp]⟩
    | true =>
      cases hn : it.resultNiftiExists with
      | false => exact ⟨404, by simp [uploadGo, hp, hn]⟩
      | true =>
        cases hc : it.createStatus == 201 with
        | false => exact ⟨400, by simp [uploadGo, hp, hn, hc]⟩
        | true =>
          have hd : (it.dataStatus == 202) = false := by
            rw [uploadPreOk, hp, hn, hc] at hpre
            simpa using hpre
          exact ⟨400, by simp [uploadGo, hp, hn, hc, hd]⟩
  | cons j pre ih =>
    intro suf acc hallpre
    have hj : uploadPreOk j = true := hallpre j (List.mem_cons_self j pre)
    have hrest : ∀ x ∈ pre, uploadPreOk x = true :=
      fun x hx => hallpre x (List.mem_cons_of_mem j hx)
    rw [uploadPreOk] at hj
    simp only [Bool.and_eq_true, beq_iff_eq] at hj
    obtain ⟨⟨⟨hp, hn⟩, hc⟩, hd⟩ := hj
    rw [List.cons_append]
    by_cases hg : j.annotGenOk = true
    · by_cases hu : (j.annUploadStatus == 200 || j.annUploadStatus == 202) = true
      · obtain ⟨code, hcode⟩ := ih suf ((j.taskId, j.nid) :: acc) hrest
        exact ⟨code, by rw [uploadGo]; simp [hp, hn, hc, hd, hg, hu]; exact hcode⟩
      · obtain ⟨code, hcode⟩ := ih suf acc hrest
        exact ⟨code, by rw [uploadGo]; simp [hp, hn, hc, hd, hg, hu]; exact hcode⟩
    · obtain ⟨code, hcode⟩ := ih suf acc hrest
      exact ⟨code, by rw [uploadGo]; simp [hp, hn, hc, hd, hg]; exact hcode⟩

theorem uploadGo_done :
    ∀ (l : List UploadItem) (acc : List (Nat × String)),
      (∀ j ∈ l, uploadPreOk j = true) →
      uploadGo l acc = .done (acc.reverse ++
        (l.filter uploadAnnOk).map (fun it => (it.taskId, it.nid))) := by
  intro l
  induction l with
  | nil => intro acc _; simp [uploadGo]
  | cons j rest ih =>
    intro acc hall
    have hj : uploadPreOk j = true := hall j (List.mem_cons_self j rest)
    have hrest : ∀ x ∈ rest, uploadPreOk x = true :=
      fun x hx => hall x (List.mem_cons_of_mem j hx)
    rw [uploadPreOk] at hj
    simp only [Bool.and_eq_true, beq_iff_eq] at hj
    obtain ⟨⟨⟨hp, hn⟩, hc⟩, hd⟩ := hj
    by_cases hg : j.annotGenOk = true
    · by_cases hu : (j.annUploadStatus == 200 || j.annUploadStatus == 202) = true
      · have hann : uploadAnnOk j = true := by
          rw [uploadAnnOk, hg, hu]; rfl
        rw [uploadGo]
        simp only [hp, hn, hc, hd, hg, hu, beq_iff_eq]
        rw [if_neg (by simp), if_neg (by simp [hn]), if_neg (by simp [hc]),
          if_neg (by simp [hd]), if_neg (by simp [hg]), if_neg (by simp [hu])]
        rw [ih ((j.taskId, j.nid) :: acc) hrest, List.filter_cons, hann]
        simp
      · have hann : uploadAnnOk j = false := by
          rw [uploadAnnOk]
          simp only [Bool.not_eq_true] at hu
          simp [hu]
        rw [uploadGo]
        rw [if_neg (by simp [hp]), if_neg (by simp [hn]), if_neg (by simp [hc]),
          if_neg (by simp [hd]), if_neg (by simp [hg]), if_pos (by simp [hu])]
        rw [ih acc hrest, List.filter_cons, hann]
        simp
    · have hann : uploadAnnOk j = false := by
        rw [uploadAnnOk]
        simp only [Bool.not_eq_true] at hg
        simp [hg]
      rw [uploadGo]
      rw [if_neg (by simp [hp]), if_neg (by simp [hn]), if_neg (by simp [hc]),
        if_neg (by simp [hd]), if_pos (by simp [hg])]
      rw [ih acc hrest, List.filter_cons, hann]
      simp

/-- Environment refuting claim C9 as stated: two upload items, the first
fully valid, the second with a missing PNG directory. -/
def envC9bad : UploadEnv :=
  { credsOk := true, authOk := true,
    items := [{ nid := "a_5", pngDirExists := true, resultNiftiExists := true,
                createStatus := 201, taskId := 7, dataStatus := 202,
                annotGenOk := true, annUploadStatus := 200 },
              { nid := "b_6", pngDirExists := false, resultNiftiExists := true,
                createStatus := 201, taskId := 8, dataStatus := 202,
                annotGenOk := true, annUploadStatus := 200 }] }

/-- Same batch restricted to its first item, which alone uploads fine. -/
def envC9good : UploadEnv :=
  { credsOk := true, authOk := true,
    items := [{ nid := "a_5", pngDirExists := true, resultNiftiExists := true,
                createStatus := 201, taskId := 7, dataStatus := 202,
                annotGenOk := true, annUploadStatus := 200 }] }

/-- C9 counterexample: in `upload_tasks` a per-item failure (missing PNG
directory of the second item) is not recorded alongside the first item's
success — the whole batch aborts with a 404 response and the first item's
completed upload is absent from the response. -/
theorem C9_counterexample :
    upload_tasks envC9good = .done [(7, "a_5")] ∧
    upload_tasks envC9bad = .abort 404 := ⟨rfl, rfl⟩

/-- C9 (amended): in `send_to_dataset`, once body, task list, credentials
and authentication pass, every per-item failure (including the shared raw
folder missing, which does not abort the batch) is recorded in the results
list, one entry per task.  In `upload_tasks`, only annotation-stage failures
are per-item — and they are skipped silently, without a results entry —
while a missing input or a failed CVAT create/upload call aborts the whole
batch mid-way. -/
theorem C9_batch_error_handling :
    (∀ env : SendEnv, env.hasData = true → env.credsOk = true → env.authOk = true →
      env.items ≠ [] →
      send_to_dataset env = .done (env.items.map (processSendItem env.rawFolderExists)) ∧
      (env.items.map (processSendItem env.rawFolderExists)).length = env.items.length) ∧
    (∀ (env : UploadEnv) (pre suf : List UploadItem) (it : UploadItem),
      env.credsOk = true → env.authOk = true → env.items = pre ++ it :: suf →
      (∀ j ∈ pre, uploadPreOk j = true) → uploadPreOk it = false →
      ∃ code, upload_tasks env = .abort code) ∧
    (∀ env : UploadEnv, env.credsOk = true → env.authOk = true → env.items ≠ [] →
      (∀ j ∈ env.items, uploadPreOk j = true) →
      upload_tasks env = .done
        ((env.items.filter uploadAnnOk).map (fun it => (it.taskId, it.nid)))) := by
  refine ⟨?_, ?_, ?_⟩
  · intro env h1 h2 h3 h4
    have hine : env.items.isEmpty = false := by
      cases hi : env.items with
      | nil => exact absurd hi h4
      | cons a l => rfl
    refine ⟨?_, List.length_map env.items _⟩
    rw [send_to_dataset, h1, h2, h3, hine]
    rfl
  · intro env pre suf it h1 h2 hsplit hallpre hpre
    have hine : env.items.isEmpty = false := by
      rw [hsplit]
      cases pre <;> rfl
    obtain ⟨code, hcode⟩ := uploadGo_abort hpre pre suf [] hallpre
    refine ⟨code, ?_⟩
    rw [upload_tasks, h1, h2, hine]
    simp only [Bool.not_true, if_false]
    rw [hsplit]
    exact hcode
  · intro env h1 h2 h3 hall
    have hine : env.items.isEmpty = false := by
      cases hi : env.items with
      | nil => exact absurd hi h3
      | cons a l => rfl
    rw [upload_tasks, h1, h2, hine]
    simp only [Bool.not_true, if_false]
    rw [uploadGo_done env.items [] hall]
    rfl

/-- Environment exercising the send part of C9: two tasks, the second
failing at retrieval, with the shared raw folder missing. -/
def envC9send : SendEnv :=
  { hasData := true, credsOk := true, authOk := true, rawFolderExists := false,
    items := [{ id := 1, idParses := true, retrieveOk := true, downloadOk := true,
                niftiIdFound := true, convertOk := true, insertOk := true,
                caseId := "la_001" },
              { id := 2, idParses := true, retrieveOk := false, downloadOk := true,
                niftiIdFound := true, convertOk := true, insertOk := true,
                caseId := "la_002" }] }

theorem C9_witness :
    send_to_dataset envC9send =
      .done (envC9send.items.map (processSendItem envC9send.rawFolderExists)) ∧
    (∃ code, upload_tasks envC9bad = .abort code) ∧
    upload_tasks envC9good =
      .done ((envC9good.items.filter uploadAnnOk).map (fun it => (it.taskId, it.nid))) := by
  refine ⟨(C9_batch_error_handling.1 envC9send rfl rfl rfl (by decide)).1, ?_, ?_⟩
  · exact C9_batch_error_handling.2.1 envC9bad [envC9good.items.getD 0 (envC9bad.items.getD 1
      { nid := "", pngDirExists := false, resultNiftiExists := false, createStatus := 0,
        taskId := 0, dataStatus := 0, annotGenOk := false, annUploadStatus := 0 })]
      [] (envC9bad.items.getD 1
      { nid := "", pngDirExists := false, resultNiftiExists := false, createStatus := 0,
        taskId := 0, dataStatus := 0, annotGenOk := false, annUploadStatus := 0 })
      rfl rfl (by decide) (by decide) (by decide)
  · exact C9_batch_error_handling.2.2 envC9good rfl rfl (by decide) (by decide)

/-- 4x4x2 volume of claim C2: label 1 occupies rows 1-2, columns 1-2 of
slice 0; slice 1 is all background. -/
def volC2 : Volume :=
  { H := 4, W := 4, D := 2,
    val := fun r c z =>
      if z == 0 && (r == 1 || r == 2) && (c == 1 || c == 2) then 1 else 0 }

/-- C2: on the 4x4x2 example volume, the encoder succeeds and produces
exactly two image records with ids 0 and 1, exactly one annotation record —
on image 0, with bbox [1, 1, 2, 2], area 4 and category id 1 — and no
annotation for image 1. -/
theorem C2_example_encoding :
    generate_coco_annotations_from_nifti volC2 "brats_x.nii.gz" =
      .ok (encOf volC2 "brats_x.nii.gz") ∧
    (encOf volC2 "brats_x.nii.gz").images.map (fun i => i.id) = [0, 1] ∧
    (encOf volC2 "brats_x.nii.gz").annotations.map
      (fun a => (a.image_id, a.category_id, a.bbox, a.area)) = [(0, 1, [1, 1, 2, 2], 4)] ∧
    (encOf volC2 "brats_x.nii.gz").annotations.filter (fun a => a.image_id == 1) = [] := by
  exact ⟨rfl, by decide, by decide, by decide⟩

/-- Document exercising C10: the second image's filename has a non-numeric
trailing token, so both images land on slice 0 and the second (last) one's
annotation, category 7, determines slice 0. -/
def docC10w : CocoDoc :=
  { categories := []
    images := [{ id := 0, file_name := "x_0.png", height := 4, width := 4 },
               { id := 1, file_name := "weird.png", height := 4, width := 4 }]
    annotations := [{ id := 0, image_id := 1, category_id := 7,
                      segmentation := [[0, 0, 3, 0, 3, 3, 0, 3]],
                      bbox := [0, 0, 4, 4], area := 16, iscrowd := 0 }] }

theorem C10_witness :
    extract_slice_index "weird.png" = 0 ∧
    ∃ m, rasterizeImg docC10w (volOf docC10w).height (volOf docC10w).width
        { id := 1, file_name := "weird.png", height := 4, width := 4 } = .ok m ∧
      (volOf docC10w).slices 0 = m := by
  exact C10_unparsed_token_goes_to_slice_zero docC10w (volOf docC10w)
    { id := 1, file_name := "weird.png", height := 4, width := 4 }
    "weird.png" rfl (by decide) (by decide) (by decide)

end IClinix
